import Mathlib

/-!
# Verification of the TokenFoundry token-resolution core

This development embeds the token-resolution engine of the plugin
(`code.ts`) in Lean 4 and proves/refutes the frozen claims about it.

Conventions of the embedding:
* JavaScript objects (`Record<string, V>`) are association lists
  `List (String × V)`; `Object.keys` order is insertion order, property
  update keeps the position of an existing key (`setKey`).
* JavaScript numbers are exact rationals `ℚ`; the inputs relevant to the
  claims stay far from floating-point rounding boundaries.
* `String.prototype.toLowerCase`, whitespace classes and string ordering
  are modelled on the ASCII fragment, which covers every string the
  claims mention.
* The recursive resolver (`resolveRef`) is embedded with explicit fuel;
  a sufficiency theorem shows the fuel used by the wrapper is never
  exhausted, which is exactly the termination argument of the source.
-/

namespace TokenFoundry

/-! ## Association-list primitives (JS object model) -/

/-- JS property write: update in place if the key exists (keeping its
position in the iteration order), otherwise append at the end. -/
def setKey {α : Type} (l : List (String × α)) (k : String) (v : α) :
    List (String × α) :=
  match l with
  | [] => [(k, v)]
  | (k', v') :: rest => if k' = k then (k, v) :: rest else (k', v') :: setKey rest k v

/-! ## Character / string primitives used by the path normalizer -/

/-- The whitespace class used by the source regexes and by trimming,
restricted to ASCII (space, tab, newline, carriage return, vertical tab,
form feed). -/
def jsWhitespace (c : Char) : Bool :=
  c = ' ' || c = '\t' || c = '\n' || c = '\r' || c = '\x0b' || c = '\x0c'

/-- ASCII model of `String.prototype.toLowerCase`, per character: map the
26 uppercase letters 32 code points up, leave everything else unchanged. -/
def toLowerChar (c : Char) : Char :=
  if 65 ≤ c.toNat ∧ c.toNat ≤ 90 then Char.ofNat (c.toNat + 32) else c

/-- `s.trim()` on a character list: drop leading and trailing whitespace. -/
def trimChars (l : List Char) : List Char :=
  ((l.dropWhile jsWhitespace).reverse.dropWhile jsWhitespace).reverse

/-- Worker for `replace(/\s+/g, "-")`: the flag records whether the
previous character belonged to a (already replaced) whitespace run. -/
def collapseWsGo : Bool → List Char → List Char
  | _, [] => []
  | prevWs, c :: rest =>
    if jsWhitespace c then
      match prevWs with
      | true => collapseWsGo true rest
      | false => '-' :: collapseWsGo true rest
    else c :: collapseWsGo false rest

/-- `replace(/\s+/g, "-")`: collapse every whitespace run to one hyphen. -/
def collapseWs (l : List Char) : List Char := collapseWsGo false l

/-- `name.split(sep)` on character lists. -/
def splitOnChar (sep : Char) : List Char → List (List Char)
  | [] => [[]]
  | c :: rest =>
    match splitOnChar sep rest with
    | [] => [[]]
    | s :: ss => if c = sep then [] :: s :: ss else (c :: s) :: ss

/-- `segments.join(".")` on character lists. -/
def joinWithDot : List (List Char) → List Char
  | [] => []
  | [s] => s
  | s :: rest => s ++ '.' :: joinWithDot rest

/-- One segment of the normalizer: `seg.trim().toLowerCase().replace(/\s+/g, "-")`. -/
def normSegment (l : List Char) : List Char :=
  collapseWs ((trimChars l).map toLowerChar)

/-- `nameToTokenPath` (code.ts line 54): split on `/`, normalize each
segment, drop empty segments, join with `.`. -/
def nameToTokenPath (name : String) : String :=
  String.mk
    (joinWithDot
      (((splitOnChar '/' name.data).map normSegment).filter (fun s => !s.isEmpty)))

/-! ## Hex encoding of colors -/

/-- `Math.round` of the source, on exact rationals: round half toward
positive infinity. -/
def jsRound (q : ℚ) : ℤ := ⌊q + 1/2⌋

/-- Hex digits of a natural number accumulated most-significant-first, by
repeated division by 16 as in `Number.prototype.toString(16)`. The first
argument is fuel; `n` itself is always sufficient. -/
def hexDigitsGo : Nat → Nat → List Char → List Char
  | 0, _, acc => acc
  | _ + 1, 0, acc => acc
  | fuel + 1, n, acc => hexDigitsGo fuel (n / 16) (Nat.digitChar (n % 16) :: acc)

/-- `n.toString(16)` for a natural number (lowercase digits). -/
def hexNat (n : Nat) : List Char := if n = 0 then ['0'] else hexDigitsGo n n []

/-- `i.toString(16)` for an integer. -/
def hexIntChars (i : ℤ) : List Char :=
  if i < 0 then '-' :: hexNat i.natAbs else hexNat i.toNat

/-- `("0" + s).slice(-2)`: keep the last two characters. -/
def pad2 (l : List Char) : List Char := ('0' :: l).drop (('0' :: l).length - 2)

/-- `rgbaToHex` (code.ts line 44): two padded hex digits per channel, the
alpha channel appended only when `a < 1` (the source tests `a >= 1`). -/
def rgbaToHex (r g b a : ℚ) : String :=
  if 1 ≤ a then
    String.mk ('#' :: (pad2 (hexIntChars (jsRound (r * 255)))
      ++ pad2 (hexIntChars (jsRound (g * 255)))
      ++ pad2 (hexIntChars (jsRound (b * 255)))))
  else
    String.mk ('#' :: (pad2 (hexIntChars (jsRound (r * 255)))
      ++ pad2 (hexIntChars (jsRound (g * 255)))
      ++ pad2 (hexIntChars (jsRound (b * 255)))
      ++ pad2 (hexIntChars (jsRound (a * 255)))))

/-! ## Data model of the token tables -/

/-- The three token namespaces. -/
inductive Bucket where
  | color
  | spacing
  | radius
deriving DecidableEq, Repr

/-- Name of a bucket as it appears in the export JSON. -/
def bucketName : Bucket → String
  | .color => "color"
  | .spacing => "spacing"
  | .radius => "radius"

/-- A Figma `VariableValue` as far as the core inspects it: a structured
color (`"r" in value`, with optional alpha), a number, a variable alias
(`{type: "VARIABLE_ALIAS", id}`), or anything else. -/
inductive VariableValue where
  | color (r g b : ℚ) (a : Option ℚ)
  | num (n : ℚ)
  | alias (id : String)
  | other
deriving DecidableEq

/-- `TokenValueRaw` (code.ts line 24): a literal color with its hex
rendering, a literal number, or a `$ref` alias to another token path. -/
inductive TokenValueRaw where
  | colorLit (r g b a : ℚ) (hex : String)
  | numLit (value : ℚ)
  | ref (path : String)
deriving DecidableEq

/-- A token entry: display-mode name to raw value (a JS object). -/
abbrev RawEntry := List (String × TokenValueRaw)

/-- A bucket table: token path to entry (a JS object). -/
abbrev RawTable := List (String × RawEntry)

/-- `TokensRaw` (code.ts line 29). -/
structure TokensRaw where
  color : RawTable
  spacing : RawTable
  radius : RawTable
deriving DecidableEq

/-- `tokensRaw[bucket]`. -/
def bucketTable (t : TokensRaw) : Bucket → RawTable
  | .color => t.color
  | .spacing => t.spacing
  | .radius => t.radius

/-- A value returned by the resolver: `{rgba: [...]}` or `{value: n}`. -/
inductive RVal where
  | rgba (r g b a : ℚ)
  | val (value : ℚ)
deriving DecidableEq

/-- An entry pushed onto the shared resolution-error list
(code.ts line 200): token path, requested mode, reason, and chain. -/
structure ResolutionError where
  tokenPath : String
  requestedModeName : String
  reason : String
  chain : List String
deriving DecidableEq

/-- `getAliasVariableId` (code.ts line 62). -/
def getAliasVariableId : VariableValue → Option String
  | .alias id => some id
  | _ => none

/-- `getValueForMode` (code.ts line 182): the value stored under the
requested mode name, with single-mode fallback. -/
def getValueForMode (tokenEntry : RawEntry) (requestedModeName : String) :
    Option TokenValueRaw :=
  match tokenEntry.lookup requestedModeName, tokenEntry with
  | some v, _ => some v
  | none, [e] => some e.2
  | none, [] => none
  | none, _ :: _ :: _ => none

/-- `buildTokenValueRaw` (code.ts line 155). The truthiness tests of the
source drop empty-string ids and empty-string token paths. -/
def buildTokenValueRaw (value : VariableValue) (isAlias : Bool)
    (varIdToTokenPath : List (String × String)) (resolvedType : String) :
    Option TokenValueRaw :=
  if isAlias then
    let targetId := getAliasVariableId value
    let tokenPath :=
      match targetId with
      | some tid => if tid = "" then none else varIdToTokenPath.lookup tid
      | none => none
    match tokenPath with
    | some p => if p = "" then none else some (.ref p)
    | none => none
  else if resolvedType = "COLOR" then
    match value with
    | .color r g b a =>
      let a' := a.getD 1
      some (.colorLit r g b a' (rgbaToHex r g b a'))
    | _ => none
  else if resolvedType = "FLOAT" then
    match value with
    | .num n => some (.numLit n)
    | _ => none
  else none

/-! ## The alias resolver -/

/-- The key added to the per-call visited set. The source uses the string
`bucket + ":" + tokenPath + ":" + requestedModeName`; within one resolution
call tree bucket and mode are constant, so the triple is a faithful
rendering of that key. -/
abbrev VisitKey := Bucket × String × String

/-- `resolveRef` (code.ts line 193), with explicit fuel (first `Nat`
argument); `none` means the fuel ran out, which `resolveRefFuel_isSome`
below proves impossible for the fuel used by the `resolveRef` wrapper.
The result carries the resolved value, the error list (the source appends
to a shared array), and the number of recursive calls performed
(instrumentation for the termination bound of the spec). Visited marks and
chain entries added by a call are released when it returns, which the
functional style provides for free. -/
def resolveRefFuel (tokensRaw : TokensRaw) (bucket : Bucket) :
    Nat → String → String → List VisitKey → List String → List ResolutionError →
    Option (Option RVal × List ResolutionError × Nat)
  | 0, _, _, _, _, _ => none
  | fuel + 1, tokenPath, requestedModeName, visited, chain, errors =>
    if (bucket, tokenPath, requestedModeName) ∈ visited then
      some (none, errors ++ [⟨tokenPath, requestedModeName, "cycle", chain ++ [tokenPath]⟩], 0)
    else
      match (bucketTable tokensRaw bucket).lookup tokenPath with
      | none =>
        some (none, errors
          ++ [⟨tokenPath, requestedModeName, "missing token", chain ++ [tokenPath]⟩], 0)
      | some tokenEntry =>
        match getValueForMode tokenEntry requestedModeName with
        | none =>
          some (none, errors
            ++ [⟨tokenPath, requestedModeName, "mode mismatch", chain ++ [tokenPath]⟩], 0)
        | some (.ref refPath) =>
          match (bucketTable tokensRaw bucket).lookup refPath with
          | none =>
            some (none, errors
              ++ [⟨tokenPath, requestedModeName, "missing token",
                  (chain ++ [tokenPath]) ++ [refPath]⟩], 0)
          | some _ =>
            match resolveRefFuel tokensRaw bucket fuel refPath requestedModeName
                ((bucket, tokenPath, requestedModeName) :: visited)
                (chain ++ [tokenPath]) errors with
            | none => none
            | some (r, e, s) => some (r, e, s + 1)
        | some (.colorLit r g b a _) => some (some (.rgba r g b a), errors, 0)
        | some (.numLit v) => some (some (.val v), errors, 0)

/-- One more than the number of distinct token paths in the bucket:
always enough fuel. -/
def bucketKeyBound (tokensRaw : TokensRaw) (bucket : Bucket) : Nat :=
  ((bucketTable tokensRaw bucket).map Prod.fst).dedup.length + 1

/-- `resolveRef` as called by the export builder. -/
def resolveRef (tokensRaw : TokensRaw) (bucket : Bucket)
    (tokenPath requestedModeName : String) (visited : List VisitKey)
    (chain : List String) (errors : List ResolutionError) :
    Option RVal × List ResolutionError × Nat :=
  (resolveRefFuel tokensRaw bucket (bucketKeyBound tokensRaw bucket)
    tokenPath requestedModeName visited chain errors).getD (none, errors, 0)

/-- Number of distinct token paths of the bucket not yet visited under the
requested mode: the decreasing measure of the recursion. -/
def unvisitedCount (tokensRaw : TokensRaw) (bucket : Bucket) (m : String)
    (visited : List VisitKey) : Nat :=
  (((bucketTable tokensRaw bucket).map Prod.fst).dedup.filter
    (fun p => decide ((bucket, p, m) ∉ visited))).length

/-! ## Input snapshot and the table builder -/

/-- A display mode of a collection. -/
structure Mode where
  id : String
  name : String
deriving DecidableEq

/-- A source variable as handed to the core (see the input contract). -/
structure RawVariable where
  id : String
  name : String
  resolvedType : String
  valuesPerMode : List (String × (VariableValue × Bool))
deriving DecidableEq

/-- `RawCollection` (code.ts line 9). -/
structure RawCollection where
  id : String
  name : String
  modes : List Mode
  «variables» : List RawVariable
deriving DecidableEq

/-- ASCII model of `String.prototype.toLowerCase` on whole strings. -/
def toLowerStr (s : String) : String := String.mk (s.data.map toLowerChar)

/-- `s.includes(sub)`: contiguous substring test. -/
def containsSub (s sub : String) : Bool := decide (sub.data <:+: s.data)

/-- The record kept for the first variable to claim a token path
(code.ts line 298). -/
structure FirstClaim where
  varId : String
  originalName : String
  collectionName : String
deriving DecidableEq

/-- `DuplicateError` (code.ts line 303); the constant `type` and
`suggestion` fields are attached at serialization. -/
structure DuplicateError where
  tokenPath : String
  bucket : Bucket
  existingVarId : String
  newVarId : String
  existingOriginalName : String
  newOriginalName : String
  existingCollectionName : String
  newCollectionName : String
deriving DecidableEq

/-- The mutable state threaded through the classification pass of
`buildExportModel`: the raw tables, the per-bucket first-claim maps, and
the duplicate-error list. -/
structure BuildState where
  tokensRaw : TokensRaw
  firstColor : List (String × FirstClaim)
  firstSpacing : List (String × FirstClaim)
  firstRadius : List (String × FirstClaim)
  dupErrors : List DuplicateError
deriving DecidableEq

/-- The empty starting state. -/
def initialBuildState : BuildState := ⟨⟨[], [], []⟩, [], [], [], []⟩

/-- `tokenPathToFirst[bucket]`. -/
def claimTable (st : BuildState) : Bucket → List (String × FirstClaim)
  | .color => st.firstColor
  | .spacing => st.firstSpacing
  | .radius => st.firstRadius

/-- Replace `tokenPathToFirst[bucket]`. -/
def setClaimTable (st : BuildState) (bucket : Bucket)
    (t : List (String × FirstClaim)) : BuildState :=
  match bucket with
  | .color => {st with firstColor := t}
  | .spacing => {st with firstSpacing := t}
  | .radius => {st with firstRadius := t}

/-- `tokensRaw[bucket]` of the state. -/
def rawTableOf (st : BuildState) (bucket : Bucket) : RawTable :=
  bucketTable st.tokensRaw bucket

/-- Replace `tokensRaw[bucket]` of the state. -/
def setRawTable (st : BuildState) (bucket : Bucket) (t : RawTable) : BuildState :=
  match bucket with
  | .color => {st with tokensRaw := ⟨t, st.tokensRaw.spacing, st.tokensRaw.radius⟩}
  | .spacing => {st with tokensRaw := ⟨st.tokensRaw.color, t, st.tokensRaw.radius⟩}
  | .radius => {st with tokensRaw := ⟨st.tokensRaw.color, st.tokensRaw.spacing, t⟩}

/-- `checkCollisionAndAdd` (code.ts line 317): a distinct variable
claiming an already-claimed path pushes one `DuplicateTokenPath` error and
answers `false`; the same variable id answers `true` without touching the
claim map; an unclaimed path records the claim. -/
def checkCollisionAndAdd (st : BuildState) (bucket : Bucket) (tokenPath : String)
    (varId originalName collectionName : String) : BuildState × Bool :=
  match (claimTable st bucket).lookup tokenPath with
  | some existing =>
    if existing.varId ≠ varId then
      ({st with dupErrors := st.dupErrors
          ++ [⟨tokenPath, bucket, existing.varId, varId, existing.originalName,
              originalName, existing.collectionName, collectionName⟩]}, false)
    else (st, true)
  | none =>
    (setClaimTable st bucket
      (setKey (claimTable st bucket) tokenPath ⟨varId, originalName, collectionName⟩), true)

/-- `modeIdToName`, rebuilt per collection (code.ts line 346). -/
def modeIdToName (col : RawCollection) : List (String × String) :=
  col.modes.foldl (fun mm mo => setKey mm mo.id mo.name) []

/-- `getOutputModeKey` (code.ts line 348): a collection with exactly one
mode named "Mode 1" exports that mode under the key "default". -/
def getOutputModeKey (col : RawCollection) (modeName : String) : String :=
  match col.modes with
  | [mo] => if mo.name = "Mode 1" ∧ modeName = "Mode 1" then "default" else modeName
  | _ => modeName

/-- The per-variable mode loop of `buildExportModel` (code.ts lines
360-365): classify each mode value and store the successful ones under
their output mode key. -/
def buildEntry (map : List (String × String)) (col : RawCollection)
    (v : RawVariable) : RawEntry :=
  v.valuesPerMode.foldl
    (fun entry pm =>
      match buildTokenValueRaw pm.2.1 pm.2.2 map v.resolvedType with
      | some tv =>
        setKey entry (getOutputModeKey col (((modeIdToName col).lookup pm.1).getD pm.1)) tv
      | none => entry)
    []

/-- The varId-to-tokenPath lookup built once per run (code.ts line 288). -/
def buildVarIdMap (collections : List RawCollection) : List (String × String) :=
  collections.foldl
    (fun mm col =>
      col.«variables».foldl (fun mm2 v => setKey mm2 v.id (nameToTokenPath v.name)) mm)
    []

/-- Claim the path in the bucket and, when allowed, (re)write the raw
entry for the variable; on a collision the raw table is left unchanged
(the `continue` of the source). -/
def addToBucket (map : List (String × String)) (col : RawCollection)
    (st : BuildState) (v : RawVariable) (bucket : Bucket) (tokenPath : String) :
    BuildState :=
  match checkCollisionAndAdd st bucket tokenPath v.id v.name col.name with
  | (st', true) => setRawTable st' bucket (setKey (rawTableOf st' bucket) tokenPath
      (buildEntry map col v))
  | (st', false) => st'

/-- The per-variable body of the classification loop (code.ts lines
353-403). The source computes a `(toSpacing, toRadius)` pair and then
tests `toSpacing` before `toRadius`; the flattened conditionals below are
that same decision tree (collection name is authoritative, spacing wins
over radius). A JS lookup miss on `varIdToTokenPath` would produce the
key `"undefined"`; the builder always populates the map, so the default
is never taken there. -/
def processVariable (map : List (String × String)) (col : RawCollection)
    (st : BuildState) (v : RawVariable) : BuildState :=
  let tokenPath := (map.lookup v.id).getD "undefined"
  if v.resolvedType = "COLOR" then
    addToBucket map col st v .color tokenPath
  else if v.resolvedType = "FLOAT" then
    if containsSub (toLowerStr col.name) "spacing" then
      addToBucket map col st v .spacing tokenPath
    else if containsSub (toLowerStr col.name) "radius" then
      addToBucket map col st v .radius tokenPath
    else if containsSub (toLowerStr v.name) "spacing" then
      addToBucket map col st v .spacing tokenPath
    else if containsSub (toLowerStr v.name) "radius" then
      addToBucket map col st v .radius tokenPath
    else st
  else st

/-- Which bucket (and token path) a variable is routed to: the same
decision tree as `processVariable`, as data. -/
def routesTo (map : List (String × String)) (col : RawCollection)
    (v : RawVariable) : Option (Bucket × String) :=
  let tokenPath := (map.lookup v.id).getD "undefined"
  if v.resolvedType = "COLOR" then some (.color, tokenPath)
  else if v.resolvedType = "FLOAT" then
    if containsSub (toLowerStr col.name) "spacing" then some (.spacing, tokenPath)
    else if containsSub (toLowerStr col.name) "radius" then some (.radius, tokenPath)
    else if containsSub (toLowerStr v.name) "spacing" then some (.spacing, tokenPath)
    else if containsSub (toLowerStr v.name) "radius" then some (.radius, tokenPath)
    else none
  else none

/-- The full classification pass over all collections. -/
def buildRawState (collections : List RawCollection) : BuildState :=
  collections.foldl
    (fun st col => col.«variables».foldl (processVariable (buildVarIdMap collections) col) st)
    initialBuildState

/-- Concrete inputs for the collision witness: two distinct variables in
different collections normalizing to the same path. -/
def demoMapC4 : List (String × String) := [("v1", "surface.1"), ("v2", "surface.1")]

def demoColA : RawCollection := ⟨"c1", "Collection A", [(⟨"m1", "Light"⟩ : Mode)], []⟩

def demoColB : RawCollection := ⟨"c2", "Collection B", [(⟨"m1", "Light"⟩ : Mode)], []⟩

def demoV1 : RawVariable := ⟨"v1", "Surface/1", "COLOR", []⟩

def demoV2 : RawVariable := ⟨"v2", "Surface/1", "COLOR", []⟩

def demoSt1 : BuildState := processVariable demoMapC4 demoColA initialBuildState demoV1

/-- Does a raw value avoid aliasing either of the two given paths? (Used
to state which tokens are unrelated to an `a`/`b` alias cycle.) -/
def refAvoids (tv : TokenValueRaw) (a b : String) : Bool :=
  match tv with
  | .ref r => decide (r ≠ a) && decide (r ≠ b)
  | _ => true

/-- Remove the two entries of a cycle from one bucket table: the baseline
against which "the presence of the cycle" is compared. -/
def eraseTwo (t : TokensRaw) (bucket : Bucket) (a b : String) : TokensRaw :=
  match bucket with
  | .color => ⟨t.color.filter (fun kv => decide (kv.1 ≠ a) && decide (kv.1 ≠ b)),
      t.spacing, t.radius⟩
  | .spacing => ⟨t.color, t.spacing.filter (fun kv => decide (kv.1 ≠ a) && decide (kv.1 ≠ b)),
      t.radius⟩
  | .radius => ⟨t.color, t.spacing,
      t.radius.filter (fun kv => decide (kv.1 ≠ a) && decide (kv.1 ≠ b))⟩

/-- A spacing table where `a` and `b` alias each other under mode `"m"`
and a third token `c` aliases into the cycle. -/
def demoCycleRefTable : TokensRaw :=
  ⟨[], [("a", [("m", .ref "b")]), ("b", [("m", .ref "a")]), ("c", [("m", .ref "a")])], []⟩

/-- `demoCycleRefTable` with the single cell of `b` replaced by a literal,
which breaks the cycle; the tables agree everywhere else. -/
def demoBrokenTable : TokensRaw :=
  ⟨[], [("a", [("m", .ref "b")]), ("b", [("m", .numLit 7)]), ("c", [("m", .ref "a")])], []⟩

/-- A spacing table with an `a`/`b` alias cycle and an unrelated literal
token `c`. -/
def demoCycleLitTable : TokensRaw :=
  ⟨[], [("a", [("m", .ref "b")]), ("b", [("m", .ref "a")]), ("c", [("m", .numLit 7)])], []⟩

/-! ## The resolution pass of the export builder -/

/-- Lexicographic comparison of character lists by code point: the order
the JS default sort comparator induces on the (ASCII) keys in play.
(The built-in `String` order of the library does not evaluate inside the
kernel, so the comparison is spelled out.) -/
def charListLe : List Char → List Char → Bool
  | [], _ => true
  | _ :: _, [] => false
  | c :: cs, d :: ds =>
    if c.toNat < d.toNat then true
    else if d.toNat < c.toNat then false
    else charListLe cs ds

/-- String comparison used by the key sorts. -/
def strLe (a b : String) : Bool := charListLe a.data b.data

/-- `Object.keys(...).sort()`: a stable sort in the string order. -/
def sortStrings (l : List String) : List String :=
  l.insertionSort (fun a b => strLe a b = true)

/-- A resolved color cell (code.ts lines 428-431): the hex rendering of
an rgba result, else `null`. -/
def colorCell (r : Option RVal) : Option String :=
  match r with
  | some (.rgba a b c d) => some (rgbaToHex a b c d)
  | _ => none

/-- One resolved color entry: iterate the (sorted) mode names, resolving
each with a fresh visited set and chain, threading the shared error
list. -/
def resolveColorEntry (raw : TokensRaw) (p : String) (modes : List String)
    (errors : List ResolutionError) :
    List (String × Option String) × List ResolutionError :=
  modes.foldl
    (fun acc m =>
      let r := resolveRef raw .color p m [] [] acc.2
      (acc.1 ++ [(m, colorCell r.1)], r.2.1))
    ([], errors)

/-- The resolved color table: token paths in sorted order. -/
def resolveColorTable (raw : TokensRaw) (errors : List ResolutionError) :
    List (String × List (String × Option String)) × List ResolutionError :=
  (sortStrings (raw.color.map Prod.fst)).foldl
    (fun acc p =>
      let e := resolveColorEntry raw p
        (sortStrings (((raw.color.lookup p).getD []).map Prod.fst)) acc.2
      (acc.1 ++ [(p, e.1)], e.2))
    ([], errors)

/-- One resolved spacing/radius entry; the resolver result object is
stored as-is (the source's type cast is a runtime no-op). -/
def resolveFloatEntry (raw : TokensRaw) (bucket : Bucket) (p : String)
    (modes : List String) (errors : List ResolutionError) :
    List (String × Option RVal) × List ResolutionError :=
  modes.foldl
    (fun acc m =>
      let r := resolveRef raw bucket p m [] [] acc.2
      (acc.1 ++ [(m, r.1)], r.2.1))
    ([], errors)

/-- The resolved table of a float bucket. -/
def resolveFloatTable (raw : TokensRaw) (bucket : Bucket)
    (errors : List ResolutionError) :
    List (String × List (String × Option RVal)) × List ResolutionError :=
  (sortStrings ((bucketTable raw bucket).map Prod.fst)).foldl
    (fun acc p =>
      let e := resolveFloatEntry raw bucket p
        (sortStrings ((((bucketTable raw bucket).lookup p).getD []).map Prod.fst)) acc.2
      (acc.1 ++ [(p, e.1)], e.2))
    ([], errors)

/-- `tokensResolved`. -/
structure ResolvedTables where
  color : List (String × List (String × Option String))
  spacing : List (String × List (String × Option RVal))
  radius : List (String × List (String × Option RVal))

/-- The full resolution pass (code.ts lines 411-438): buckets in the
fixed order color, spacing, radius, sharing one append-only error
list. -/
def resolveAll (raw : TokensRaw) : ResolvedTables × List ResolutionError :=
  let c := resolveColorTable raw []
  let s := resolveFloatTable raw .spacing c.2
  let r := resolveFloatTable raw .radius s.2
  (⟨c.1, s.1, r.1⟩, r.2)

/-! ## The JSON export model -/

/-- A JSON value; objects keep their key order, as JS objects do. -/
inductive JValue where
  | null
  | bool (b : Bool)
  | num (q : ℚ)
  | str (s : String)
  | arr (elems : List JValue)
  | obj (fields : List (String × JValue))

mutual
/-- A hand-rolled structural size for JSON values, used as fuel below
(the derived size of a nested inductive has no executable code). -/
def jSize : JValue → Nat
  | .null => 1
  | .bool _ => 1
  | .num _ => 1
  | .str _ => 1
  | .arr es => 1 + jListSize es
  | .obj fs => 1 + jFieldsSize fs
def jListSize : List JValue → Nat
  | [] => 0
  | j :: rest => jSize j + jListSize rest
def jFieldsSize : List (String × JValue) → Nat
  | [] => 0
  | (_, v) :: rest => 1 + jSize v + jFieldsSize rest
end

/-- Stable sort of object fields by key, as `Object.keys(obj).sort()`
enumerates them (the JS comparator and this order agree on ASCII keys). -/
def sortPairs (l : List (String × JValue)) : List (String × JValue) :=
  l.insertionSort (fun x y => strLe x.1 y.1 = true)

/-- The per-field recursion of `sortObjectKeys` (code.ts line 716):
recurse into plain-object values, copy everything else (arrays included)
verbatim. The `Nat` is fuel; `sizeOf` of the field list always
suffices. The source sorts the keys first and then copies the values in
sorted order; recursing into the values first and sorting afterwards
yields the same list because the stable key sort never inspects values. -/
def sortFieldsF : Nat → List (String × JValue) → List (String × JValue)
  | 0, l => l
  | _ + 1, [] => []
  | f + 1, (k, JValue.obj g) :: rest =>
    (k, JValue.obj (sortPairs (sortFieldsF f g))) :: sortFieldsF f rest
  | f + 1, (k, JValue.null) :: rest => (k, JValue.null) :: sortFieldsF f rest
  | f + 1, (k, JValue.bool b) :: rest => (k, JValue.bool b) :: sortFieldsF f rest
  | f + 1, (k, JValue.num q) :: rest => (k, JValue.num q) :: sortFieldsF f rest
  | f + 1, (k, JValue.str s) :: rest => (k, JValue.str s) :: sortFieldsF f rest
  | f + 1, (k, JValue.arr es) :: rest => (k, JValue.arr es) :: sortFieldsF f rest

/-- `sortObjectKeys` (code.ts line 716). -/
def sortObjectKeys (j : JValue) : JValue :=
  match j with
  | .obj fields => .obj (sortPairs (sortFieldsF (jFieldsSize fields + 1) fields))
  | j => j

/-- Rendering of a number. JS float formatting is not modelled digit by
digit; this stand-in is injective on the rationals, which is all the
determinism claims rely on. -/
def renderNum (q : ℚ) : String :=
  if q.den = 1 then toString q.num else toString q.num ++ "/" ++ toString q.den

/-- Compact JSON serialization (string escaping omitted: no value in play
contains a quote). The `Nat` is fuel; `sizeOf` of the value suffices. -/
def renderF : Nat → JValue → String
  | 0, _ => ""
  | _ + 1, .null => "null"
  | _ + 1, .bool b => if b then "true" else "false"
  | _ + 1, .num q => renderNum q
  | _ + 1, .str s => "\"" ++ s ++ "\""
  | f + 1, .arr elems => "[" ++ String.intercalate "," (elems.map (renderF f)) ++ "]"
  | f + 1, .obj fields =>
    "\x7b" ++ String.intercalate ","
      (fields.map (fun kv => "\"" ++ kv.1 ++ "\":" ++ renderF f kv.2)) ++ "\x7d"

/-- Serialize a JSON value. -/
def render (j : JValue) : String := renderF (jSize j) j

/-- Object field access. -/
def getField (j : JValue) (k : String) : Option JValue :=
  match j with
  | .obj fields => fields.lookup k
  | _ => none

/-- Follow a path of object keys. -/
def getPath : JValue → List String → Option JValue
  | j, [] => some j
  | j, k :: ks =>
    match getField j k with
    | some v => getPath v ks
    | none => none

/-- Does the JSON object carry this field? -/
def hasKey (j : JValue) (k : String) : Bool :=
  match j with
  | .obj fields => (fields.lookup k).isSome
  | _ => false

/-- Every object node reachable without passing through an array has its
keys in sorted order — what `sortObjectKeys` establishes (it does not
enter arrays). -/
inductive KeysSortedDeep : JValue → Prop where
  | null : KeysSortedDeep .null
  | bool (b : Bool) : KeysSortedDeep (.bool b)
  | num (q : ℚ) : KeysSortedDeep (.num q)
  | str (s : String) : KeysSortedDeep (.str s)
  | arr (elems : List JValue) : KeysSortedDeep (.arr elems)
  | obj (fields : List (String × JValue))
      (hkeys : (fields.map Prod.fst).Sorted (fun a b => strLe a b = true))
      (hvals : ∀ kv ∈ fields, KeysSortedDeep kv.2) : KeysSortedDeep (.obj fields)

/-- Replace the value of `meta.exportedAt` by `null`: everything of the
export model except the timestamp. -/
def stripMetaObj (j : JValue) : JValue :=
  match j with
  | .obj fields => .obj (fields.map (fun kv =>
      if kv.1 = "exportedAt" then (kv.1, JValue.null) else kv))
  | j => j

/-- Strip the timestamp out of an export model. -/
def stripExportedAt (j : JValue) : JValue :=
  match j with
  | .obj fields => .obj (fields.map (fun kv =>
      if kv.1 = "meta" then (kv.1, stripMetaObj kv.2) else kv))
  | j => j

/-- JSON of one mode. -/
def modeJson (mo : Mode) : JValue := .obj [("id", .str mo.id), ("name", .str mo.name)]

/-- Modes sorted by id (the source uses `localeCompare`; this order
agrees with it on the ASCII ids in play). -/
def sortModes (modes : List Mode) : List Mode :=
  modes.insertionSort (fun x y => strLe x.id y.id = true)

/-- JSON of one collection (code.ts line 441). -/
def collectionJson (c : RawCollection) : JValue :=
  .obj [("id", .str c.id), ("name", .str c.name),
    ("modes", .arr ((sortModes c.modes).map modeJson))]

/-- JSON of a raw token value. -/
def rawValueJson : TokenValueRaw → JValue
  | .colorLit r g b a hex =>
    .obj [("rgba", .arr [.num r, .num g, .num b, .num a]), ("hex", .str hex)]
  | .numLit v => .obj [("value", .num v)]
  | .ref p => .obj [("$ref", .str p)]

/-- JSON of a raw entry. -/
def rawEntryJson (e : RawEntry) : JValue :=
  .obj (e.map (fun kv => (kv.1, rawValueJson kv.2)))

/-- JSON of a raw bucket table. -/
def rawTableJson (t : RawTable) : JValue :=
  .obj (t.map (fun kv => (kv.1, rawEntryJson kv.2)))

/-- JSON of `tokensRaw`. -/
def tokensRawJson (t : TokensRaw) : JValue :=
  .obj [("color", rawTableJson t.color), ("spacing", rawTableJson t.spacing),
    ("radius", rawTableJson t.radius)]

/-- JSON of a resolved color cell. -/
def colorCellJson : Option String → JValue
  | some s => .str s
  | none => .null

/-- JSON of a resolved spacing/radius cell (the resolver's result object,
stored as-is by the source). -/
def floatCellJson : Option RVal → JValue
  | some (.rgba r g b a) => .obj [("rgba", .arr [.num r, .num g, .num b, .num a])]
  | some (.val v) => .obj [("value", .num v)]
  | none => .null

/-- JSON of `tokensResolved`. -/
def resolvedJson (rt : ResolvedTables) : JValue :=
  .obj [
    ("color", .obj (rt.color.map (fun kv =>
      (kv.1, JValue.obj (kv.2.map (fun mv => (mv.1, colorCellJson mv.2))))))),
    ("spacing", .obj (rt.spacing.map (fun kv =>
      (kv.1, JValue.obj (kv.2.map (fun mv => (mv.1, floatCellJson mv.2))))))),
    ("radius", .obj (rt.radius.map (fun kv =>
      (kv.1, JValue.obj (kv.2.map (fun mv => (mv.1, floatCellJson mv.2)))))))]

/-- JSON of a duplicate error, with the constant `type` and `suggestion`
fields of the source object. -/
def dupErrorJson (d : DuplicateError) : JValue :=
  .obj [("type", .str "DuplicateTokenPath"), ("tokenPath", .str d.tokenPath),
    ("bucket", .str (bucketName d.bucket)), ("existingVarId", .str d.existingVarId),
    ("newVarId", .str d.newVarId), ("existingOriginalName", .str d.existingOriginalName),
    ("newOriginalName", .str d.newOriginalName),
    ("existingCollectionName", .str d.existingCollectionName),
    ("newCollectionName", .str d.newCollectionName),
    ("suggestion", .str "Rename one of the variables or move them into the same collection.")]

/-- JSON of a resolution error. -/
def resErrorJson (e : ResolutionError) : JValue :=
  .obj [("tokenPath", .str e.tokenPath),
    ("requestedModeName", .str e.requestedModeName),
    ("reason", .str e.reason), ("chain", .arr (e.chain.map JValue.str))]

/-- `buildExportModel` (code.ts line 285) as a JSON value. The source
reads the clock (`new Date().toISOString()`); the timestamp is therefore
an explicit input `now` here. -/
def buildExportModel (now : String) (collections : List RawCollection) : JValue :=
  let st := buildRawState collections
  let res := resolveAll st.tokensRaw
  .obj [
    ("meta", .obj [("exportedAt", .str now), ("pluginVersion", .str "0.1.0")]),
    ("collections", .arr (collections.map collectionJson)),
    ("tokensRaw", sortObjectKeys (tokensRawJson st.tokensRaw)),
    ("tokensResolved", sortObjectKeys (resolvedJson res.1)),
    ("errors", .arr (st.dupErrors.map dupErrorJson ++ res.2.map resErrorJson))]

/-- The collision input for the C6 counterexample: two COLOR variables in
different collections, both normalizing to `surface.1`. -/
def demoC6cols : List RawCollection :=
  [⟨"c1", "Collection A", [(⟨"m1", "Light"⟩ : Mode)], [⟨"v1", "Surface/1", "COLOR", []⟩]⟩,
   ⟨"c2", "Collection B", [(⟨"m1", "Light"⟩ : Mode)], [⟨"v2", "Surface/1", "COLOR", []⟩]⟩]

/-- The concrete scenario input of C8. -/
def demoC8cols : List RawCollection :=
  [⟨"c1", "Colors", [(⟨"m1", "Light"⟩ : Mode)],
    [⟨"vA", "Accent/Primary/100", "COLOR",
      [("m1", (VariableValue.color 0.88 0.95 1 (some 1), false))]⟩,
     ⟨"vB", "Button/Main", "COLOR",
      [("m1", (VariableValue.alias "vA", true))]⟩]⟩]

/-! ## Theorems: character and normalizer lemmas -/

theorem ofNat_toNat_valid (n : Nat) (h : n < 55296) : (Char.ofNat n).toNat = n := by
  simp [Char.ofNat, Nat.isValidChar, h, Char.toNat, Char.ofNatAux, UInt32.toNat, Nat.toUInt32]

theorem toNat_toLowerChar (c : Char) (h : 65 ≤ c.toNat ∧ c.toNat ≤ 90) :
    (toLowerChar c).toNat = c.toNat + 32 := by
  rw [toLowerChar, if_pos h]
  exact ofNat_toNat_valid _ (by omega)

theorem toLowerChar_fix (c : Char) (h : ¬ (65 ≤ c.toNat ∧ c.toNat ≤ 90)) :
    toLowerChar c = c := by
  rw [toLowerChar, if_neg h]

theorem toLowerChar_idem (c : Char) : toLowerChar (toLowerChar c) = toLowerChar c := by
  by_cases h : 65 ≤ c.toNat ∧ c.toNat ≤ 90
  · have h2 := toNat_toLowerChar c h
    exact toLowerChar_fix _ (by omega)
  · have hc := toLowerChar_fix c h
    rw [hc, hc]

theorem toLowerChar_eq_slash (c : Char) (h : toLowerChar c = '/') : c = '/' := by
  by_cases hr : 65 ≤ c.toNat ∧ c.toNat ≤ 90
  · have h2 := toNat_toLowerChar c hr
    rw [h] at h2
    have : ('/').toNat = 47 := by decide
    omega
  · rwa [toLowerChar_fix c hr] at h

theorem collapseWsGo_mem (b : Bool) (l : List Char) :
    ∀ c ∈ collapseWsGo b l, c = '-' ∨ (c ∈ l ∧ jsWhitespace c = false) := by
  induction l generalizing b with
  | nil => intro c hc; simp [collapseWsGo] at hc
  | cons d rest ih =>
    intro c hc
    by_cases hd : jsWhitespace d
    · rcases b with _ | _ <;> simp only [collapseWsGo, if_pos hd] at hc
      · rcases List.mem_cons.mp hc with h | h
        · left; exact h
        · rcases ih true c h with h1 | h1
          · left; exact h1
          · right; exact ⟨List.mem_cons_of_mem _ h1.1, h1.2⟩
      · rcases ih true c hc with h1 | h1
        · left; exact h1
        · right; exact ⟨List.mem_cons_of_mem _ h1.1, h1.2⟩
    · simp only [collapseWsGo, if_neg hd] at hc
      rcases List.mem_cons.mp hc with h | h
      · right
        exact ⟨h ▸ List.mem_cons_self _ _, by subst h; simpa using hd⟩
      · rcases ih false c h with h1 | h1
        · left; exact h1
        · right; exact ⟨List.mem_cons_of_mem _ h1.1, h1.2⟩

theorem collapseWsGo_id (b : Bool) (l : List Char) (h : ∀ c ∈ l, jsWhitespace c = false) :
    collapseWsGo b l = l := by
  induction l generalizing b with
  | nil => rfl
  | cons d rest ih =>
    have hd : jsWhitespace d = false := h d (List.mem_cons_self _ _)
    simp only [collapseWsGo, hd, Bool.false_eq_true, if_false]
    rw [ih false (fun c hc => h c (List.mem_cons_of_mem _ hc))]

theorem dropWhile_id_of_none {p : Char → Bool} (l : List Char)
    (h : ∀ c ∈ l, p c = false) : l.dropWhile p = l := by
  induction l with
  | nil => rfl
  | cons d rest _ =>
    rw [List.dropWhile_cons_of_neg]
    simp [h d (List.mem_cons_self _ _)]

theorem trimChars_subset (l : List Char) : ∀ c ∈ trimChars l, c ∈ l := by
  intro c hc
  unfold trimChars at hc
  rw [List.mem_reverse] at hc
  have h1 := (List.dropWhile_sublist _).mem hc
  rw [List.mem_reverse] at h1
  exact (List.dropWhile_sublist _).mem h1

theorem trimChars_id (l : List Char) (h : ∀ c ∈ l, jsWhitespace c = false) :
    trimChars l = l := by
  unfold trimChars
  rw [dropWhile_id_of_none l h, dropWhile_id_of_none _ (fun c hc => h c (List.mem_reverse.mp hc)),
    List.reverse_reverse]

theorem joinWithDot_mem (segs : List (List Char)) :
    ∀ c ∈ joinWithDot segs, c = '.' ∨ ∃ s ∈ segs, c ∈ s := by
  induction segs with
  | nil => intro c hc; simp [joinWithDot] at hc
  | cons s rest ih =>
    intro c hc
    cases rest with
    | nil => exact Or.inr ⟨s, List.mem_cons_self _ _, hc⟩
    | cons t ts =>
      have hJ : joinWithDot (s :: t :: ts) = s ++ '.' :: joinWithDot (t :: ts) := rfl
      rw [hJ] at hc
      rcases List.mem_append.mp hc with h | h
      · exact Or.inr ⟨s, List.mem_cons_self _ _, h⟩
      · rcases List.mem_cons.mp h with h1 | h1
        · exact Or.inl h1
        · rcases ih c h1 with h2 | ⟨u, hu, hcu⟩
          · exact Or.inl h2
          · exact Or.inr ⟨u, List.mem_cons_of_mem _ hu, hcu⟩

theorem splitOnChar_not_mem (sep : Char) (l : List Char) :
    ∀ part ∈ splitOnChar sep l, sep ∉ part := by
  induction l with
  | nil => intro part hp; simp [splitOnChar] at hp; simp [hp]
  | cons c rest ih =>
    intro part hp
    simp only [splitOnChar] at hp
    rcases hsplit : splitOnChar sep rest with _ | ⟨s, ss⟩
    · rw [hsplit] at hp; simp at hp; simp [hp]
    · rw [hsplit] at hp
      have ihs : sep ∉ s := ih s (by rw [hsplit]; exact List.mem_cons_self _ _)
      have ihss : ∀ p ∈ ss, sep ∉ p := fun p hps =>
        ih p (by rw [hsplit]; exact List.mem_cons_of_mem _ hps)
      by_cases hc : c = sep
      · simp only [if_pos hc, List.mem_cons] at hp
        rcases hp with h | h | h
        · simp [h]
        · exact h ▸ ihs
        · exact ihss part h
      · simp only [if_neg hc, List.mem_cons] at hp
        rcases hp with h | h
        · subst h
          intro hmem
          rcases List.mem_cons.mp hmem with h1 | h1
          · exact hc h1.symm
          · exact ihs h1
        · exact ihss part h

theorem splitOnChar_of_not_mem (sep : Char) (l : List Char) (h : sep ∉ l) :
    splitOnChar sep l = [l] := by
  induction l with
  | nil => rfl
  | cons c rest ih =>
    have hc : c ≠ sep := fun hh => h (hh ▸ List.mem_cons_self _ _)
    have hr : sep ∉ rest := fun hh => h (List.mem_cons_of_mem _ hh)
    simp only [splitOnChar, ih hr, if_neg hc]

theorem nameToTokenPath_chars (name : String) :
    ∀ c ∈ (nameToTokenPath name).data,
      c ≠ '/' ∧ jsWhitespace c = false ∧ toLowerChar c = c := by
  intro c hc
  have hc2 : c ∈ joinWithDot
      (((splitOnChar '/' name.data).map normSegment).filter (fun s => !s.isEmpty)) := hc
  rcases joinWithDot_mem _ c hc2 with hdot | ⟨seg, hseg, hcseg⟩
  · subst hdot; exact ⟨by decide, by decide, by decide⟩
  · have hseg2 := List.mem_of_mem_filter hseg
    rcases List.mem_map.mp hseg2 with ⟨part, hpart, rfl⟩
    have hnos : '/' ∉ part := splitOnChar_not_mem '/' name.data part hpart
    rcases collapseWsGo_mem false _ c hcseg with hdash | ⟨hmem, hws⟩
    · subst hdash; exact ⟨by decide, by decide, by decide⟩
    · rcases List.mem_map.mp hmem with ⟨d, hd, rfl⟩
      refine ⟨?_, hws, toLowerChar_idem d⟩
      intro hslash
      have hd2 : d ∈ part := trimChars_subset _ d hd
      rw [toLowerChar_eq_slash d hslash] at hd2
      exact hnos hd2

theorem nameToTokenPath_fixed (l : List Char)
    (hp : ∀ c ∈ l, c ≠ '/' ∧ jsWhitespace c = false ∧ toLowerChar c = c) :
    nameToTokenPath (String.mk l) = String.mk l := by
  have hnos : '/' ∉ l := fun h => (hp '/' h).1 rfl
  have hnorm : normSegment l = l := by
    unfold normSegment
    rw [trimChars_id l (fun c hcm => (hp c hcm).2.1)]
    have hmap : l.map toLowerChar = l :=
      (List.map_congr_left (fun c hcm => (hp c hcm).2.2)).trans (List.map_id l)
    rw [hmap]
    exact collapseWsGo_id false l (fun c hcm => (hp c hcm).2.1)
  show String.mk (joinWithDot (((splitOnChar '/' l).map normSegment).filter
    (fun s => !s.isEmpty))) = String.mk l
  rw [splitOnChar_of_not_mem _ _ hnos]
  cases l with
  | nil => rfl
  | cons c0 rest =>
    rw [List.map_singleton, hnorm]
    rfl

/-! ## Theorems: hex encoding -/

theorem hexDigitsGo_zero (f : Nat) (acc : List Char) : hexDigitsGo f 0 acc = acc := by
  cases f <;> rfl

theorem hexDigitsGo_step (f m : Nat) (acc : List Char) :
    hexDigitsGo (f + 1) (m + 1) acc
      = hexDigitsGo f ((m + 1) / 16) (Nat.digitChar ((m + 1) % 16) :: acc) := rfl

theorem hexNat_length (n : Nat) (h : n ≤ 255) :
    (hexNat n).length = 1 ∨ (hexNat n).length = 2 := by
  by_cases h0 : n = 0
  · left; simp [hexNat, h0]
  · obtain ⟨m, rfl⟩ := Nat.exists_eq_succ_of_ne_zero h0
    rw [hexNat, if_neg h0]
    by_cases hlt : m + 1 < 16
    · left
      rw [hexDigitsGo_step, Nat.div_eq_of_lt hlt, hexDigitsGo_zero]
      rfl
    · right
      push_neg at hlt
      have hq1 : (m + 1) / 16 ≠ 0 := by
        have := (Nat.one_le_div_iff (by norm_num : 0 < 16)).mpr hlt
        omega
      have hq2 : (m + 1) / 16 < 16 := by omega
      obtain ⟨j, hj⟩ := Nat.exists_eq_succ_of_ne_zero hq1
      obtain ⟨k, hk⟩ : ∃ k, m = k + 1 := ⟨m - 1, by omega⟩
      rw [hexDigitsGo_step, hj, hk, hexDigitsGo_step, Nat.div_eq_of_lt (by omega),
        hexDigitsGo_zero]
      rfl

theorem pad2_length (l : List Char) (h1 : l.length = 1 ∨ l.length = 2) :
    (pad2 l).length = 2 := by
  rcases h1 with h | h <;> simp [pad2, h]

theorem jsRound_bounds (x : ℚ) (h0 : 0 ≤ x) (h1 : x ≤ 1) :
    0 ≤ jsRound (x * 255) ∧ jsRound (x * 255) ≤ 255 := by
  constructor
  · apply Int.le_floor.mpr
    push_cast
    nlinarith
  · have h2 : (x * 255 + 1/2 : ℚ) < ((256 : ℤ) : ℚ) := by push_cast; nlinarith
    have := Int.floor_lt.mpr h2
    rw [jsRound]
    omega

theorem channel_length (x : ℚ) (h0 : 0 ≤ x) (h1 : x ≤ 1) :
    (pad2 (hexIntChars (jsRound (x * 255)))).length = 2 := by
  obtain ⟨hl, hu⟩ := jsRound_bounds x h0 h1
  rw [hexIntChars, if_neg (by omega)]
  exact pad2_length _ (hexNat_length _ (by omega))

/-- C7: a literal color classified under declared type `COLOR`, with
components in `[0,1]` and optional alpha defaulting to `1`, produces the
rgba literal plus its hex string; each channel contributes exactly two
hex digits, and the alpha channel is appended if and only if `a < 1`, so
the hex string has 7 characters when `a = 1` and 9 when `a < 1`. -/
theorem color_hex_channels (r g b : ℚ) (aOpt : Option ℚ)
    (map : List (String × String))
    (hr0 : 0 ≤ r) (hr1 : r ≤ 1) (hg0 : 0 ≤ g) (hg1 : g ≤ 1)
    (hb0 : 0 ≤ b) (hb1 : b ≤ 1)
    (ha0 : 0 ≤ aOpt.getD 1) (ha1 : aOpt.getD 1 ≤ 1) :
    buildTokenValueRaw (.color r g b aOpt) false map "COLOR"
      = some (.colorLit r g b (aOpt.getD 1) (rgbaToHex r g b (aOpt.getD 1)))
    ∧ (∀ x : ℚ, 0 ≤ x → x ≤ 1 → (pad2 (hexIntChars (jsRound (x * 255)))).length = 2)
    ∧ (aOpt.getD 1 < 1 →
        rgbaToHex r g b (aOpt.getD 1)
          = String.mk ('#' :: (pad2 (hexIntChars (jsRound (r * 255)))
              ++ pad2 (hexIntChars (jsRound (g * 255)))
              ++ pad2 (hexIntChars (jsRound (b * 255)))
              ++ pad2 (hexIntChars (jsRound (aOpt.getD 1 * 255)))))
          ∧ (rgbaToHex r g b (aOpt.getD 1)).length = 9)
    ∧ (aOpt.getD 1 = 1 →
        rgbaToHex r g b (aOpt.getD 1)
          = String.mk ('#' :: (pad2 (hexIntChars (jsRound (r * 255)))
              ++ pad2 (hexIntChars (jsRound (g * 255)))
              ++ pad2 (hexIntChars (jsRound (b * 255)))))
          ∧ (rgbaToHex r g b (aOpt.getD 1)).length = 7) := by
  have hR := channel_length r hr0 hr1
  have hG := channel_length g hg0 hg1
  have hB := channel_length b hb0 hb1
  refine ⟨?_, channel_length, ?_, ?_⟩
  · rfl
  · intro hlt
    have hA := channel_length _ ha0 ha1
    have heq : rgbaToHex r g b (aOpt.getD 1)
        = String.mk ('#' :: (pad2 (hexIntChars (jsRound (r * 255)))
            ++ pad2 (hexIntChars (jsRound (g * 255)))
            ++ pad2 (hexIntChars (jsRound (b * 255)))
            ++ pad2 (hexIntChars (jsRound (aOpt.getD 1 * 255))))) := by
      rw [rgbaToHex, if_neg (not_le.mpr hlt)]
    refine ⟨heq, ?_⟩
    rw [heq]
    simp [String.length, hR, hG, hB, hA]
  · intro ha
    have heq : rgbaToHex r g b (aOpt.getD 1)
        = String.mk ('#' :: (pad2 (hexIntChars (jsRound (r * 255)))
            ++ pad2 (hexIntChars (jsRound (g * 255)))
            ++ pad2 (hexIntChars (jsRound (b * 255))))) := by
      rw [rgbaToHex, if_pos (le_of_eq ha.symm)]
    refine ⟨heq, ?_⟩
    rw [heq]
    simp [String.length, hR, hG, hB]

/-- Witness for C7 at concrete inputs. -/
theorem color_hex_channels_witness :
    (rgbaToHex (1/2) 0 1 ((some (1/2 : ℚ)).getD 1)).length = 9
    ∧ (rgbaToHex (1/2) 0 1 ((none : Option ℚ).getD 1)).length = 7 := by
  constructor
  · exact ((color_hex_channels (1/2) 0 1 (some (1/2)) [] (by norm_num) (by norm_num)
      (by norm_num) (by norm_num) (by norm_num) (by norm_num) (by norm_num)
      (by norm_num)).2.2.1 (by norm_num)).2
  · exact ((color_hex_channels (1/2) 0 1 none [] (by norm_num) (by norm_num)
      (by norm_num) (by norm_num) (by norm_num) (by norm_num) (by norm_num)
      (by norm_num)).2.2.2 (by norm_num)).2

/-! ## Theorems: the alias resolver -/

theorem lookup_some_mem_keys {β : Type} {l : List (String × β)} {k : String} {v : β}
    (h : l.lookup k = some v) : k ∈ l.map Prod.fst := by
  induction l with
  | nil => simp [List.lookup] at h
  | cons e rest ih =>
    obtain ⟨a, b⟩ := e
    rw [List.lookup] at h
    cases hab : k == a with
    | true =>
      have : k = a := beq_iff_eq.mp hab
      subst this
      exact List.mem_cons_self _ _
    | false =>
      rw [hab] at h
      exact List.mem_cons_of_mem _ (ih h)

theorem length_filter_mono {α : Type} (l : List α) (p q : α → Bool)
    (himp : ∀ x ∈ l, q x = true → p x = true) :
    (l.filter q).length ≤ (l.filter p).length := by
  induction l with
  | nil => simp
  | cons d rest ih =>
    have ih2 := ih (fun x hx => himp x (List.mem_cons_of_mem _ hx))
    by_cases hq : q d
    · have hp : p d := himp d (List.mem_cons_self _ _) hq
      simp only [List.filter, hq, hp]
      simpa using ih2
    · simp only [Bool.not_eq_true] at hq
      simp only [List.filter, hq]
      by_cases hp : p d
      · simp only [hp]
        simp only [List.length_cons]
        omega
      · simp only [Bool.not_eq_true] at hp
        simp only [hp]
        exact ih2

theorem length_filter_lt {α : Type} (l : List α) (p q : α → Bool)
    (himp : ∀ x ∈ l, q x = true → p x = true)
    (x : α) (hx : x ∈ l) (hpx : p x = true) (hqx : q x = false) :
    (l.filter q).length < (l.filter p).length := by
  induction l with
  | nil => simp at hx
  | cons d rest ih =>
    have himp2 : ∀ y ∈ rest, q y = true → p y = true :=
      fun y hy => himp y (List.mem_cons_of_mem _ hy)
    by_cases hq : q d
    · have hp : p d := himp d (List.mem_cons_self _ _) hq
      have hdx : d ≠ x := by
        intro he
        rw [he, hqx] at hq
        cases hq
      have hxr : x ∈ rest := by
        rcases List.mem_cons.mp hx with h | h
        · exact absurd h.symm hdx
        · exact h
      simp only [List.filter, hq, hp]
      simpa using ih himp2 hxr
    · simp only [Bool.not_eq_true] at hq
      by_cases hp : p d
      · simp only [List.filter, hq, hp]
        have := length_filter_mono rest p q himp2
        simp only [List.length_cons]
        omega
      · simp only [Bool.not_eq_true] at hp
        have hdx : d ≠ x := by
          intro he
          rw [he, hpx] at hp
          cases hp
        have hxr : x ∈ rest := by
          rcases List.mem_cons.mp hx with h | h
          · exact absurd h.symm hdx
          · exact h
        simp only [List.filter, hq, hp]
        exact ih himp2 hxr

theorem unvisitedCount_decrease (tokensRaw : TokensRaw) (bucket : Bucket)
    (m tokenPath : String) (visited : List VisitKey) (entry : RawEntry)
    (hlook : (bucketTable tokensRaw bucket).lookup tokenPath = some entry)
    (hnv : (bucket, tokenPath, m) ∉ visited) :
    unvisitedCount tokensRaw bucket m ((bucket, tokenPath, m) :: visited)
      < unvisitedCount tokensRaw bucket m visited := by
  apply length_filter_lt _ _ _ ?himp tokenPath
    (List.mem_dedup.mpr (lookup_some_mem_keys hlook))
    (by simpa using hnv) (by simp)
  intro x _ hqx
  simp only [decide_eq_true_eq] at hqx ⊢
  intro hmem
  exact hqx (List.mem_cons_of_mem _ hmem)

theorem unvisitedCount_le (tokensRaw : TokensRaw) (bucket : Bucket)
    (m : String) (visited : List VisitKey) :
    unvisitedCount tokensRaw bucket m visited
      ≤ ((bucketTable tokensRaw bucket).map Prod.fst).dedup.length :=
  List.length_filter_le _ _

theorem resolveRefFuel_isSome (tokensRaw : TokensRaw) (bucket : Bucket) (m : String) :
    ∀ (fuel : Nat) (tokenPath : String) (visited : List VisitKey)
      (chain : List String) (errors : List ResolutionError),
      unvisitedCount tokensRaw bucket m visited < fuel →
      (resolveRefFuel tokensRaw bucket fuel tokenPath m visited chain errors).isSome = true := by
  intro fuel
  induction fuel with
  | zero => intro _ _ _ _ h; omega
  | succ f ih =>
    intro tokenPath visited chain errors hcount
    rw [resolveRefFuel]
    split
    · rfl
    · rename_i hv
      split
      · rfl
      · rename_i tokenEntry hlook
        split
        · rfl
        · rename_i refPath hmode
          split
          · rfl
          · rename_i e2 hlook2
            have hdec := unvisitedCount_decrease tokensRaw bucket m tokenPath
              visited tokenEntry hlook hv
            have hsub := ih refPath ((bucket, tokenPath, m) :: visited)
              (chain ++ [tokenPath]) errors (by omega)
            obtain ⟨⟨r, e, s⟩, hres⟩ := Option.isSome_iff_exists.mp hsub
            rw [hres]
            rfl
        · rfl
        · rfl

theorem resolveRefFuel_stable (tokensRaw : TokensRaw) (bucket : Bucket) (m : String) :
    ∀ (f g : Nat) (tokenPath : String) (visited : List VisitKey)
      (chain : List String) (errors : List ResolutionError),
      unvisitedCount tokensRaw bucket m visited < f →
      unvisitedCount tokensRaw bucket m visited < g →
      resolveRefFuel tokensRaw bucket f tokenPath m visited chain errors
        = resolveRefFuel tokensRaw bucket g tokenPath m visited chain errors := by
  intro f
  induction f with
  | zero => intro _ _ _ _ _ hf _; omega
  | succ f ih =>
    intro g tokenPath visited chain errors hf hg
    cases g with
    | zero => omega
    | succ g' =>
      rw [resolveRefFuel]
      conv_rhs => rw [resolveRefFuel]
      split
      · rfl
      · rename_i hv
        split
        · rfl
        · rename_i tokenEntry hlook
          split
          · rfl
          · rename_i refPath hmode
            split
            · rfl
            · rename_i e2 hlook2
              have hdec := unvisitedCount_decrease tokensRaw bucket m tokenPath
                visited tokenEntry hlook hv
              rw [ih g' refPath ((bucket, tokenPath, m) :: visited)
                (chain ++ [tokenPath]) errors (by omega) (by omega)]
          · rfl
          · rfl

theorem resolveRefFuel_errors_acc (tokensRaw : TokensRaw) (bucket : Bucket) (m : String) :
    ∀ (f : Nat) (tokenPath : String) (visited : List VisitKey)
      (chain : List String) (errors : List ResolutionError),
      resolveRefFuel tokensRaw bucket f tokenPath m visited chain errors
        = (resolveRefFuel tokensRaw bucket f tokenPath m visited chain []).map
            (fun x => (x.1, errors ++ x.2.1, x.2.2)) := by
  intro f
  induction f with
  | zero => intro _ _ _ _; rfl
  | succ f ih =>
    intro tokenPath visited chain errors
    rw [resolveRefFuel]
    conv_rhs => rw [resolveRefFuel]
    split
    · simp
    · rename_i hv
      split
      · simp
      · rename_i tokenEntry hlook
        split
        · simp
        · rename_i refPath hmode
          split
          · simp
          · rename_i e2 hlook2
            rw [ih refPath ((bucket, tokenPath, m) :: visited) (chain ++ [tokenPath]) errors]
            cases hsub : resolveRefFuel tokensRaw bucket f refPath m
                ((bucket, tokenPath, m) :: visited) (chain ++ [tokenPath]) [] with
            | none => rfl
            | some res =>
              obtain ⟨r, e, s⟩ := res
              rfl
        · simp
        · simp

theorem resolveRefFuel_steps (tokensRaw : TokensRaw) (bucket : Bucket) (m : String) :
    ∀ (f : Nat) (tokenPath : String) (visited : List VisitKey)
      (chain : List String) (errors : List ResolutionError)
      (r : Option RVal) (e : List ResolutionError) (s : Nat),
      resolveRefFuel tokensRaw bucket f tokenPath m visited chain errors = some (r, e, s) →
      s ≤ unvisitedCount tokensRaw bucket m visited := by
  intro f
  induction f with
  | zero => intro _ _ _ _ _ _ _ h; exact absurd h (by simp [resolveRefFuel])
  | succ f ih =>
    intro tokenPath visited chain errors r e s h
    rw [resolveRefFuel] at h
    split at h
    · have h3 := congrArg (fun x => x.map (fun y => y.2.2)) h
      simp at h3
      omega
    · rename_i hv
      split at h
      · have h3 := congrArg (fun x => x.map (fun y => y.2.2)) h
        simp at h3
        omega
      · rename_i tokenEntry hlook
        split at h
        · have h3 := congrArg (fun x => x.map (fun y => y.2.2)) h
          simp at h3
          omega
        · rename_i refPath hmode
          split at h
          · have h3 := congrArg (fun x => x.map (fun y => y.2.2)) h
            simp at h3
            omega
          · rename_i e2 hlook2
            have hdec := unvisitedCount_decrease tokensRaw bucket m tokenPath
              visited tokenEntry hlook hv
            cases hsub : resolveRefFuel tokensRaw bucket f refPath m
                ((bucket, tokenPath, m) :: visited) (chain ++ [tokenPath]) errors with
            | none => rw [hsub] at h; exact absurd h (by simp)
            | some res =>
              obtain ⟨r', e', s'⟩ := res
              rw [hsub] at h
              have hs : s = s' + 1 := by
                have := Option.some.inj h
                exact (congrArg (fun x => x.2.2) this).symm
              have := ih refPath ((bucket, tokenPath, m) :: visited)
                (chain ++ [tokenPath]) errors r' e' s' hsub
              omega
        · have h3 := congrArg (fun x => x.map (fun y => y.2.2)) h
          simp at h3
          omega
        · have h3 := congrArg (fun x => x.map (fun y => y.2.2)) h
          simp at h3
          omega

theorem resolveRefFuel_eq_resolveRef (tokensRaw : TokensRaw) (bucket : Bucket)
    (tokenPath m : String) (visited : List VisitKey) (chain : List String)
    (errors : List ResolutionError) :
    resolveRefFuel tokensRaw bucket (bucketKeyBound tokensRaw bucket)
      tokenPath m visited chain errors
      = some (resolveRef tokensRaw bucket tokenPath m visited chain errors) := by
  have hlt : unvisitedCount tokensRaw bucket m visited < bucketKeyBound tokensRaw bucket :=
    Nat.lt_succ_of_le (unvisitedCount_le tokensRaw bucket m visited)
  obtain ⟨res, hres⟩ := Option.isSome_iff_exists.mp
    (resolveRefFuel_isSome tokensRaw bucket m _ tokenPath visited chain errors hlt)
  rw [resolveRef, hres]
  rfl

/-- C5: the alias resolver always terminates — the fuel used by the
wrapper, one more than the number of distinct token paths in the bucket,
is never exhausted (each recursive step strictly extends the visited set,
see `unvisitedCount_decrease`) — and starting from an empty visited set
it performs at most as many recursive steps as there are token paths in
the bucket. -/
theorem resolveRef_terminates_and_bounded (tokensRaw : TokensRaw) (bucket : Bucket)
    (tokenPath requestedModeName : String) :
    (resolveRefFuel tokensRaw bucket (bucketKeyBound tokensRaw bucket)
        tokenPath requestedModeName [] [] []).isSome = true
    ∧ (resolveRef tokensRaw bucket tokenPath requestedModeName [] [] []).2.2
        ≤ ((bucketTable tokensRaw bucket).map Prod.fst).dedup.length := by
  have hlt : unvisitedCount tokensRaw bucket requestedModeName []
      < bucketKeyBound tokensRaw bucket :=
    Nat.lt_succ_of_le (unvisitedCount_le tokensRaw bucket requestedModeName [])
  refine ⟨resolveRefFuel_isSome tokensRaw bucket requestedModeName _ tokenPath [] [] [] hlt, ?_⟩
  have hres := resolveRefFuel_eq_resolveRef tokensRaw bucket tokenPath requestedModeName [] [] []
  have hsteps := resolveRefFuel_steps tokensRaw bucket requestedModeName
    (bucketKeyBound tokensRaw bucket) tokenPath [] [] []
    (resolveRef tokensRaw bucket tokenPath requestedModeName [] [] []).1
    (resolveRef tokensRaw bucket tokenPath requestedModeName [] [] []).2.1
    (resolveRef tokensRaw bucket tokenPath requestedModeName [] [] []).2.2
    (by rw [hres])
  exact le_trans hsteps (unvisitedCount_le tokensRaw bucket requestedModeName [])

/-- C3: `getValueForMode` returns the value stored under the exact
requested mode name when present; otherwise, when the entry has exactly
one mode in total, it returns that sole value; otherwise it returns no
value, and the resolver then fails with a `"mode mismatch"` error for
that (path, mode) pair. -/
theorem getValueForMode_single_mode_fallback (entry : RawEntry) (m : String) :
    (∀ v, entry.lookup m = some v → getValueForMode entry m = some v)
    ∧ (∀ e, entry.lookup m = none → entry = [e] → getValueForMode entry m = some e.2)
    ∧ (entry.lookup m = none → entry.length ≠ 1 → getValueForMode entry m = none)
    ∧ (∀ (tokensRaw : TokensRaw) (bucket : Bucket) (tokenPath : String)
        (chain : List String) (errors : List ResolutionError),
        (bucketTable tokensRaw bucket).lookup tokenPath = some entry →
        getValueForMode entry m = none →
        resolveRef tokensRaw bucket tokenPath m [] chain errors
          = (none, errors ++ [⟨tokenPath, m, "mode mismatch", chain ++ [tokenPath]⟩], 0)) := by
  refine ⟨?_, ?_, ?_, ?_⟩
  · intro v hv
    simp only [getValueForMode, hv]
  · intro e hnone he
    subst he
    simp only [getValueForMode, hnone]
  · intro hnone hlen
    simp only [getValueForMode, hnone]
    match entry, hlen with
    | [], _ => rfl
    | [e], hlen => exact absurd rfl hlen
    | e1 :: e2 :: rest, _ => rfl
  · intro tokensRaw bucket tokenPath chain errors hlook hmode
    have hfuel : resolveRefFuel tokensRaw bucket (bucketKeyBound tokensRaw bucket)
        tokenPath m [] chain errors
        = some (none, errors ++ [⟨tokenPath, m, "mode mismatch", chain ++ [tokenPath]⟩], 0) := by
      rw [show bucketKeyBound tokensRaw bucket
          = ((bucketTable tokensRaw bucket).map Prod.fst).dedup.length + 1 from rfl,
        resolveRefFuel]
      rw [if_neg (by simp)]
      simp only [hlook, hmode]
    have := resolveRefFuel_eq_resolveRef tokensRaw bucket tokenPath m [] chain errors
    rw [hfuel] at this
    exact (Option.some.inj this).symm

/-- Witness for C3: a two-mode entry under a requested mode matching
neither key falls through to a mode-mismatch failure. -/
theorem getValueForMode_single_mode_fallback_witness :
    getValueForMode [("Light", TokenValueRaw.numLit 1), ("Dark", TokenValueRaw.numLit 2)]
        "Base" = none
    ∧ resolveRef
        ⟨[], [("x", [("Light", TokenValueRaw.numLit 1), ("Dark", TokenValueRaw.numLit 2)])], []⟩
        .spacing "x" "Base" [] [] []
        = (none, [⟨"x", "Base", "mode mismatch", ["x"]⟩], 0) := by
  constructor
  · exact (getValueForMode_single_mode_fallback
      [("Light", TokenValueRaw.numLit 1), ("Dark", TokenValueRaw.numLit 2)] "Base").2.2.1
      (by rfl) (by decide)
  · have h4 := (getValueForMode_single_mode_fallback
      [("Light", TokenValueRaw.numLit 1), ("Dark", TokenValueRaw.numLit 2)] "Base").2.2.2
      ⟨[], [("x", [("Light", TokenValueRaw.numLit 1), ("Dark", TokenValueRaw.numLit 2)])], []⟩
      .spacing "x" [] [] (by rfl)
      ((getValueForMode_single_mode_fallback
        [("Light", TokenValueRaw.numLit 1), ("Dark", TokenValueRaw.numLit 2)] "Base").2.2.1
        (by rfl) (by decide))
    simpa using h4

/-! ## Theorems: cycle detection (C2) -/

theorem lookup_mem_pair {β : Type} {l : List (String × β)} {k : String} {v : β}
    (h : l.lookup k = some v) : (k, v) ∈ l := by
  induction l with
  | nil => simp [List.lookup] at h
  | cons e rest ih =>
    obtain ⟨a, b⟩ := e
    rw [List.lookup] at h
    cases hab : k == a with
    | true =>
      have hk : k = a := beq_iff_eq.mp hab
      rw [hab] at h
      have hv : b = v := Option.some.inj h
      subst hk hv
      exact List.mem_cons_self _ _
    | false =>
      rw [hab] at h
      exact List.mem_cons_of_mem _ (ih h)

theorem getValueForMode_mem (e : RawEntry) (m : String) (v : TokenValueRaw)
    (h : getValueForMode e m = some v) : ∃ k, (k, v) ∈ e := by
  unfold getValueForMode at h
  split at h
  · rename_i v' hv
    exact ⟨m, Option.some.inj h ▸ lookup_mem_pair hv⟩
  · rename_i e0 hnone
    exact ⟨e0.1, by rw [← Option.some.inj h]; exact List.mem_singleton.mpr rfl⟩
  · exact absurd h (by simp)
  · exact absurd h (by simp)

theorem lookup_filter_ne {β : Type} (l : List (String × β)) (a b q : String)
    (hqa : q ≠ a) (hqb : q ≠ b) :
    (l.filter (fun kv => decide (kv.1 ≠ a) && decide (kv.1 ≠ b))).lookup q = l.lookup q := by
  induction l with
  | nil => rfl
  | cons e rest ih =>
    obtain ⟨k, v⟩ := e
    by_cases hk : k = a ∨ k = b
    · have hf : (decide ((k, v).1 ≠ a) && decide ((k, v).1 ≠ b)) = false := by
        rcases hk with h | h <;> simp [h]
      have hqk : (q == k) = false := by
        rcases hk with h | h
        · subst h; exact beq_eq_false_iff_ne.mpr hqa
        · subst h; exact beq_eq_false_iff_ne.mpr hqb
      simp only [List.filter, hf]
      rw [ih]
      conv_rhs => rw [List.lookup, hqk]
    · push_neg at hk
      have hf : (decide ((k, v).1 ≠ a) && decide ((k, v).1 ≠ b)) = true := by
        simp [hk.1, hk.2]
      simp only [List.filter, hf]
      rw [List.lookup, List.lookup]
      cases hqk : q == k with
      | true => rfl
      | false => exact ih

theorem resolveRefFuel_frame (Ta Tb : TokensRaw) (bucket : Bucket) (a b : String)
    (hagree : ∀ q, q ≠ a → q ≠ b →
      (bucketTable Ta bucket).lookup q = (bucketTable Tb bucket).lookup q)
    (hrefs : ∀ kv ∈ bucketTable Ta bucket, kv.1 ≠ a → kv.1 ≠ b →
      ∀ mv ∈ kv.2, refAvoids mv.2 a b = true) :
    ∀ (fuel : Nat) (p m : String) (visited : List VisitKey)
      (chain : List String) (errors : List ResolutionError), p ≠ a → p ≠ b →
      resolveRefFuel Ta bucket fuel p m visited chain errors
        = resolveRefFuel Tb bucket fuel p m visited chain errors := by
  intro fuel
  induction fuel with
  | zero => intro _ _ _ _ _ _ _; rfl
  | succ f ih =>
    intro p m visited chain errors hpa hpb
    have hl := hagree p hpa hpb
    rw [resolveRefFuel]
    conv_rhs => rw [resolveRefFuel]
    rw [← hl]
    split
    · rfl
    · rename_i hv
      split
      · rfl
      · rename_i tokenEntry hlook
        split
        · rfl
        · rename_i refPath hmode
          obtain ⟨mk, hmk⟩ := getValueForMode_mem tokenEntry m _ hmode
          have hpair : (p, tokenEntry) ∈ bucketTable Ta bucket := lookup_mem_pair hlook
          have havoid := hrefs (p, tokenEntry) hpair hpa hpb
            (mk, TokenValueRaw.ref refPath) hmk
          simp only [refAvoids, Bool.and_eq_true, decide_eq_true_eq] at havoid
          have hl2 := hagree refPath havoid.1 havoid.2
          rw [← hl2]
          split
          · rfl
          · rename_i e2 hlook2
            rw [ih refPath m ((bucket, p, m) :: visited) (chain ++ [p]) errors
              havoid.1 havoid.2]
        · rfl
        · rfl

theorem dedup_two_le {l : List String} {a b : String} (hab : a ≠ b)
    (ha : a ∈ l) (hb : b ∈ l) : 2 ≤ l.dedup.length := by
  have ha2 : a ∈ l.dedup := List.mem_dedup.mpr ha
  have hb2 : b ∈ l.dedup := List.mem_dedup.mpr hb
  match hd : l.dedup with
  | [] => rw [hd] at ha2; simp at ha2
  | [x] =>
    rw [hd] at ha2 hb2
    simp at ha2 hb2
    exact absurd (ha2.trans hb2.symm) hab
  | x :: y :: rest => simp

theorem resolveRef_cycle_left (T : TokensRaw) (bucket : Bucket) (a b m : String)
    (ea eb : RawEntry) (errors : List ResolutionError)
    (hab : a ≠ b)
    (hA : (bucketTable T bucket).lookup a = some ea)
    (hB : (bucketTable T bucket).lookup b = some eb)
    (hva : getValueForMode ea m = some (.ref b))
    (hvb : getValueForMode eb m = some (.ref a)) :
    resolveRef T bucket a m [] [] errors
      = (none, errors ++ [⟨a, m, "cycle", [a, b, a]⟩], 2) := by
  have hD : 2 ≤ ((bucketTable T bucket).map Prod.fst).dedup.length :=
    dedup_two_le hab (lookup_some_mem_keys hA) (lookup_some_mem_keys hB)
  obtain ⟨k, hk⟩ : ∃ k, bucketKeyBound T bucket = k + 3 :=
    ⟨((bucketTable T bucket).map Prod.fst).dedup.length - 2, by
      rw [bucketKeyBound]; omega⟩
  have h3 : resolveRefFuel T bucket (k + 1) a m
      [(bucket, b, m), (bucket, a, m)] [a, b] errors
      = some (none, errors ++ [⟨a, m, "cycle", [a, b] ++ [a]⟩], 0) := by
    rw [resolveRefFuel, if_pos (by simp)]
  have h2 : resolveRefFuel T bucket (k + 2) b m [(bucket, a, m)] [a] errors
      = some (none, errors ++ [⟨a, m, "cycle", [a, b] ++ [a]⟩], 0 + 1) := by
    rw [resolveRefFuel, if_neg (by simp [Ne.symm hab])]
    simp only [hB, hvb, hA, List.singleton_append]
    rw [h3]
  rw [resolveRef, hk, resolveRefFuel, if_neg (by simp)]
  simp only [hA, hva, hB, List.nil_append]
  rw [h2]
  simp

theorem bucketTable_eraseTwo (t : TokensRaw) (bucket : Bucket) (a b : String) :
    bucketTable (eraseTwo t bucket a b) bucket
      = (bucketTable t bucket).filter (fun kv => decide (kv.1 ≠ a) && decide (kv.1 ≠ b)) := by
  cases bucket <;> rfl

theorem dedup_length_le_of_subset {l1 l2 : List String} (h : l1 ⊆ l2) :
    l1.dedup.length ≤ l2.dedup.length := by
  rw [← List.card_toFinset, ← List.card_toFinset]
  apply Finset.card_le_card
  intro x hx
  rw [List.mem_toFinset] at hx ⊢
  exact h hx

theorem eraseTwo_keyBound_le (t : TokensRaw) (bucket : Bucket) (a b : String) :
    bucketKeyBound (eraseTwo t bucket a b) bucket ≤ bucketKeyBound t bucket := by
  rw [bucketKeyBound, bucketKeyBound, bucketTable_eraseTwo]
  have hsub : ((bucketTable t bucket).filter
      (fun kv => decide (kv.1 ≠ a) && decide (kv.1 ≠ b))).map Prod.fst
      ⊆ (bucketTable t bucket).map Prod.fst := by
    intro x hx
    rcases List.mem_map.mp hx with ⟨kv, hkv, rfl⟩
    exact List.mem_map.mpr ⟨kv, List.mem_of_mem_filter hkv, rfl⟩
  have := dedup_length_le_of_subset hsub
  omega

theorem resolveRef_frame (T : TokensRaw) (bucket : Bucket) (a b : String)
    (hrefs : ∀ kv ∈ bucketTable T bucket, kv.1 ≠ a → kv.1 ≠ b →
      ∀ mv ∈ kv.2, refAvoids mv.2 a b = true)
    (p m : String) (visited : List VisitKey) (chain : List String)
    (errors : List ResolutionError) (hpa : p ≠ a) (hpb : p ≠ b) :
    resolveRef T bucket p m visited chain errors
      = resolveRef (eraseTwo T bucket a b) bucket p m visited chain errors := by
  have hagree : ∀ q, q ≠ a → q ≠ b →
      (bucketTable T bucket).lookup q
        = (bucketTable (eraseTwo T bucket a b) bucket).lookup q := by
    intro q hqa hqb
    rw [bucketTable_eraseTwo]
    exact (lookup_filter_ne _ a b q hqa hqb).symm
  have hframe := resolveRefFuel_frame T (eraseTwo T bucket a b) bucket a b hagree hrefs
    (bucketKeyBound T bucket) p m visited chain errors hpa hpb
  have h1 := resolveRefFuel_eq_resolveRef T bucket p m visited chain errors
  have h2 := resolveRefFuel_eq_resolveRef (eraseTwo T bucket a b) bucket p m
    visited chain errors
  have hlt1 : unvisitedCount (eraseTwo T bucket a b) bucket m visited
      < bucketKeyBound T bucket := by
    have hu := unvisitedCount_le (eraseTwo T bucket a b) bucket m visited
    have hb := eraseTwo_keyBound_le T bucket a b
    unfold bucketKeyBound at hb ⊢
    omega
  have hlt2 : unvisitedCount (eraseTwo T bucket a b) bucket m visited
      < bucketKeyBound (eraseTwo T bucket a b) bucket :=
    Nat.lt_succ_of_le (unvisitedCount_le _ _ _ _)
  have hstable := resolveRefFuel_stable (eraseTwo T bucket a b) bucket m
    (bucketKeyBound T bucket) (bucketKeyBound (eraseTwo T bucket a b) bucket)
    p visited chain errors hlt1 hlt2
  apply Option.some.inj
  rw [← h1, ← h2, hframe, hstable]

/-- C2 counterexample: in `demoCycleRefTable`, `a` aliases `b` and `b`
aliases `a` under mode `"m"`; `demoBrokenTable` agrees with it except at
the one cell of `b`, which breaks the cycle. The third pair `(c, "m")`
resolves to `null` with the cycle present and to a value with the cycle
broken, so the resolution of a pair other than the two cycle members is
changed by the presence of the cycle, refuting the final clause of the
claim as stated. -/
theorem cycle_other_pair_affected :
    (bucketTable demoCycleRefTable .spacing).lookup "a" = some [("m", TokenValueRaw.ref "b")]
    ∧ (bucketTable demoCycleRefTable .spacing).lookup "b" = some [("m", TokenValueRaw.ref "a")]
    ∧ getValueForMode [("m", TokenValueRaw.ref "b")] "m" = some (TokenValueRaw.ref "b")
    ∧ getValueForMode [("m", TokenValueRaw.ref "a")] "m" = some (TokenValueRaw.ref "a")
    ∧ (bucketTable demoBrokenTable .spacing).lookup "a"
        = (bucketTable demoCycleRefTable .spacing).lookup "a"
    ∧ (bucketTable demoBrokenTable .spacing).lookup "c"
        = (bucketTable demoCycleRefTable .spacing).lookup "c"
    ∧ (resolveRef demoCycleRefTable .spacing "c" "m" [] [] []).1 = none
    ∧ (resolveRef demoBrokenTable .spacing "c" "m" [] [] []).1 = some (RVal.val 7)
    ∧ (resolveRef demoCycleRefTable .spacing "c" "m" [] [] []).1
        ≠ (resolveRef demoBrokenTable .spacing "c" "m" [] [] []).1 := by
  refine ⟨rfl, rfl, rfl, rfl, rfl, rfl, rfl, rfl, ?_⟩
  intro h
  have h1 : (resolveRef demoCycleRefTable .spacing "c" "m" [] [] []).1 = none := rfl
  have h2 : (resolveRef demoBrokenTable .spacing "c" "m" [] [] []).1
      = some (RVal.val 7) := rfl
  rw [h1, h2] at h
  exact Option.noConfusion h

/-- C2 (amended): when `a` aliases `b` and `b` aliases `a` in the same
mode, resolving each of the two pairs with a fresh visited set emits one
`Cycle` error carrying the accumulated chain and yields `null`; and every
other (path, mode) pair whose entries never alias `a` or `b` resolves
exactly as in the table with the two cycle tokens removed. (Pairs that
alias into the cycle can be affected — see the counterexample.) -/
theorem cycle_detection_amended (T : TokensRaw) (bucket : Bucket) (a b m : String)
    (ea eb : RawEntry) (errors : List ResolutionError)
    (hab : a ≠ b)
    (hA : (bucketTable T bucket).lookup a = some ea)
    (hB : (bucketTable T bucket).lookup b = some eb)
    (hva : getValueForMode ea m = some (.ref b))
    (hvb : getValueForMode eb m = some (.ref a))
    (hrefs : ∀ kv ∈ bucketTable T bucket, kv.1 ≠ a → kv.1 ≠ b →
      ∀ mv ∈ kv.2, refAvoids mv.2 a b = true) :
    resolveRef T bucket a m [] [] errors
      = (none, errors ++ [⟨a, m, "cycle", [a, b, a]⟩], 2)
    ∧ resolveRef T bucket b m [] [] errors
      = (none, errors ++ [⟨b, m, "cycle", [b, a, b]⟩], 2)
    ∧ ∀ (p m' : String) (vis : List VisitKey) (ch : List String)
        (errs : List ResolutionError), p ≠ a → p ≠ b →
        resolveRef T bucket p m' vis ch errs
          = resolveRef (eraseTwo T bucket a b) bucket p m' vis ch errs :=
  ⟨resolveRef_cycle_left T bucket a b m ea eb errors hab hA hB hva hvb,
   resolveRef_cycle_left T bucket b a m eb ea errors (Ne.symm hab) hB hA hvb hva,
   fun p m' vis ch errs hpa hpb => resolveRef_frame T bucket a b hrefs p m' vis ch errs hpa hpb⟩

/-- Witness for the amended C2 at a concrete cyclic table. -/
theorem cycle_detection_amended_witness :
    resolveRef demoCycleLitTable .spacing "a" "m" [] [] []
      = (none, [⟨"a", "m", "cycle", ["a", "b", "a"]⟩], 2)
    ∧ resolveRef demoCycleLitTable .spacing "c" "m" [] [] []
        = resolveRef (eraseTwo demoCycleLitTable .spacing "a" "b") .spacing "c" "m" [] [] [] := by
  have h := cycle_detection_amended demoCycleLitTable .spacing "a" "b" "m"
    [("m", .ref "b")] [("m", .ref "a")] [] (by decide) rfl rfl rfl rfl (by decide)
  exact ⟨by simpa using h.1, h.2.2 "c" "m" [] [] [] (by decide) (by decide)⟩

/-! ## Theorems: collision detection (C4) -/

theorem setKey_setKey {α : Type} (l : List (String × α)) (k : String) (v1 v2 : α) :
    setKey (setKey l k v1) k v2 = setKey l k v2 := by
  induction l with
  | nil => simp [setKey]
  | cons e rest ih =>
    obtain ⟨k', v'⟩ := e
    by_cases hk : k' = k
    · simp [setKey, hk]
    · simp only [setKey, if_neg hk]
      rw [ih]

theorem claimTable_setRawTable (st : BuildState) (b b' : Bucket) (t : RawTable) :
    claimTable (setRawTable st b t) b' = claimTable st b' := by
  cases b <;> cases b' <;> rfl

theorem dupErrors_setRawTable (st : BuildState) (b : Bucket) (t : RawTable) :
    (setRawTable st b t).dupErrors = st.dupErrors := by
  cases b <;> rfl

theorem rawTableOf_setRawTable (st : BuildState) (b : Bucket) (t : RawTable) :
    rawTableOf (setRawTable st b t) b = t := by
  cases b <;> rfl

theorem setRawTable_setRawTable (st : BuildState) (b : Bucket) (t1 t2 : RawTable) :
    setRawTable (setRawTable st b t1) b t2 = setRawTable st b t2 := by
  cases b <;> rfl

theorem processVariable_routed (map : List (String × String)) (col : RawCollection)
    (st : BuildState) (v : RawVariable) (bucket : Bucket) (p : String)
    (hroute : routesTo map col v = some (bucket, p)) :
    processVariable map col st v = addToBucket map col st v bucket p := by
  unfold routesTo at hroute
  unfold processVariable
  by_cases h1 : v.resolvedType = "COLOR"
  · simp only [if_pos h1] at hroute ⊢
    obtain ⟨h2, h3⟩ := Prod.mk.injEq .. ▸ Option.some.inj hroute
    rw [← h2, ← h3]
  · simp only [if_neg h1] at hroute ⊢
    by_cases h2 : v.resolvedType = "FLOAT"
    · simp only [if_pos h2] at hroute ⊢
      by_cases h3 : containsSub (toLowerStr col.name) "spacing"
      · simp only [if_pos h3] at hroute ⊢
        obtain ⟨h4, h5⟩ := Prod.mk.injEq .. ▸ Option.some.inj hroute
        rw [← h4, ← h5]
      · simp only [if_neg h3] at hroute ⊢
        by_cases h4 : containsSub (toLowerStr col.name) "radius"
        · simp only [if_pos h4] at hroute ⊢
          obtain ⟨h5, h6⟩ := Prod.mk.injEq .. ▸ Option.some.inj hroute
          rw [← h5, ← h6]
        · simp only [if_neg h4] at hroute ⊢
          by_cases h5 : containsSub (toLowerStr v.name) "spacing"
          · simp only [if_pos h5] at hroute ⊢
            obtain ⟨h6, h7⟩ := Prod.mk.injEq .. ▸ Option.some.inj hroute
            rw [← h6, ← h7]
          · simp only [if_neg h5] at hroute ⊢
            by_cases h6 : containsSub (toLowerStr v.name) "radius"
            · simp only [if_pos h6] at hroute ⊢
              obtain ⟨h7, h8⟩ := Prod.mk.injEq .. ▸ Option.some.inj hroute
              rw [← h7, ← h8]
            · simp only [if_neg h6] at hroute
              exact absurd hroute (by simp)
    · simp only [if_neg h2] at hroute
      exact absurd hroute (by simp)

/-- C4: a second variable with a different identifier that claims a token
path already claimed in its bucket produces exactly one
`DuplicateTokenPath` error carrying both variables' metadata, is excluded
(the raw table and the claim map are untouched); re-processing a variable
whose identifier matches the existing claimant produces no error, and
processing it twice leaves the same state as processing it once. -/
theorem collision_detection (map : List (String × String)) (col : RawCollection)
    (st : BuildState) (v : RawVariable) (bucket : Bucket) (p : String) (cl : FirstClaim)
    (hroute : routesTo map col v = some (bucket, p))
    (hclaim : (claimTable st bucket).lookup p = some cl) :
    (cl.varId ≠ v.id →
      processVariable map col st v
        = {st with dupErrors := st.dupErrors
            ++ [⟨p, bucket, cl.varId, v.id, cl.originalName, v.name,
                cl.collectionName, col.name⟩]})
    ∧ (cl.varId = v.id →
        (processVariable map col st v).dupErrors = st.dupErrors
        ∧ processVariable map col (processVariable map col st v) v
            = processVariable map col st v) := by
  rw [processVariable_routed map col st v bucket p hroute]
  constructor
  · intro hne
    unfold addToBucket checkCollisionAndAdd
    simp only [hclaim, if_pos hne]
  · intro heq
    have hnn : ¬ (cl.varId ≠ v.id) := fun h => h heq
    have hfirst : addToBucket map col st v bucket p
        = setRawTable st bucket (setKey (rawTableOf st bucket) p (buildEntry map col v)) := by
      unfold addToBucket checkCollisionAndAdd
      simp only [hclaim, if_neg hnn]
    refine ⟨?_, ?_⟩
    · rw [hfirst, dupErrors_setRawTable]
    · rw [hfirst]
      rw [processVariable_routed map col _ v bucket p hroute]
      have hclaim2 : (claimTable (setRawTable st bucket
          (setKey (rawTableOf st bucket) p (buildEntry map col v))) bucket).lookup p
          = some cl := by
        rw [claimTable_setRawTable]
        exact hclaim
      unfold addToBucket checkCollisionAndAdd
      simp only [hclaim2, if_neg hnn]
      rw [rawTableOf_setRawTable, setKey_setKey, setRawTable_setRawTable]

/-- Witness for C4: two variables named `"Surface/1"` in different
collections, both type COLOR, produce exactly one `DuplicateTokenPath`
error; and re-processing the first claimant is a no-op. -/
theorem collision_detection_witness :
    processVariable demoMapC4 demoColB demoSt1 demoV2
      = {demoSt1 with dupErrors := demoSt1.dupErrors
          ++ [⟨"surface.1", .color, "v1", "v2", "Surface/1", "Surface/1",
              "Collection A", "Collection B"⟩]}
    ∧ processVariable demoMapC4 demoColA
        (processVariable demoMapC4 demoColA demoSt1 demoV1) demoV1
        = processVariable demoMapC4 demoColA demoSt1 demoV1 := by
  have hclaim : (claimTable demoSt1 .color).lookup "surface.1"
      = some ⟨"v1", "Surface/1", "Collection A"⟩ := rfl
  constructor
  · exact (collision_detection demoMapC4 demoColB demoSt1 demoV2 .color "surface.1"
      ⟨"v1", "Surface/1", "Collection A"⟩ (by rfl) hclaim).1 (by decide)
  · exact ((collision_detection demoMapC4 demoColA demoSt1 demoV1 .color "surface.1"
      ⟨"v1", "Surface/1", "Collection A"⟩ (by rfl) hclaim).2 (by rfl)).2

/-! ## Theorems: the resolved table mirrors the raw table (C10) -/

theorem resolveRef_errors (t : TokensRaw) (b : Bucket) (p m : String)
    (vis : List VisitKey) (ch : List String) (errs : List ResolutionError) :
    resolveRef t b p m vis ch errs
      = ((resolveRef t b p m vis ch []).1,
         errs ++ (resolveRef t b p m vis ch []).2.1,
         (resolveRef t b p m vis ch []).2.2) := by
  have h1 := resolveRefFuel_eq_resolveRef t b p m vis ch errs
  have h2 := resolveRefFuel_eq_resolveRef t b p m vis ch []
  have h3 := resolveRefFuel_errors_acc t b m (bucketKeyBound t b) p vis ch errs
  rw [h1, h2] at h3
  simpa using Option.some.inj h3

theorem lookup_map_self {β : Type} (l : List String) (f : String → β) (p : String)
    (hp : p ∈ l) : (l.map (fun q => (q, f q))).lookup p = some (f p) := by
  induction l with
  | nil => simp at hp
  | cons q rest ih =>
    rw [List.map_cons, List.lookup]
    cases hpq : p == q with
    | true =>
      have : p = q := beq_iff_eq.mp hpq
      subst this
      rfl
    | false =>
      have hne : p ≠ q := beq_eq_false_iff_ne.mp hpq
      rcases List.mem_cons.mp hp with h | h
      · exact absurd h hne
      · exact ih h

theorem foldl_table_shape {γ : Type}
    (g : String → List ResolutionError → γ × List ResolutionError)
    (gfst : String → γ) (hg : ∀ p errs, (g p errs).1 = gfst p) :
    ∀ (keys : List String) (errors : List ResolutionError) (acc1 : List (String × γ)),
      (keys.foldl (fun acc p => (acc.1 ++ [(p, (g p acc.2).1)], (g p acc.2).2))
          (acc1, errors)).1
        = acc1 ++ keys.map (fun p => (p, gfst p)) := by
  intro keys
  induction keys with
  | nil => intro errors acc1; simp
  | cons p ps ih =>
    intro errors acc1
    rw [List.foldl_cons, ih]
    rw [hg p errors]
    simp

theorem resolveColorEntry_shape (raw : TokensRaw) (p : String) (modes : List String)
    (errors : List ResolutionError) :
    (resolveColorEntry raw p modes errors).1
      = modes.map (fun m => (m, colorCell (resolveRef raw .color p m [] [] []).1)) := by
  have h := foldl_table_shape
    (fun m errs => (colorCell (resolveRef raw .color p m [] [] errs).1,
      (resolveRef raw .color p m [] [] errs).2.1))
    (fun m => colorCell (resolveRef raw .color p m [] [] []).1)
    (fun m errs => by simp only [resolveRef_errors raw .color p m [] [] errs])
    modes errors []
  simpa using h

theorem resolveFloatEntry_shape (raw : TokensRaw) (bucket : Bucket) (p : String)
    (modes : List String) (errors : List ResolutionError) :
    (resolveFloatEntry raw bucket p modes errors).1
      = modes.map (fun m => (m, (resolveRef raw bucket p m [] [] []).1)) := by
  have h := foldl_table_shape
    (fun m errs => ((resolveRef raw bucket p m [] [] errs).1,
      (resolveRef raw bucket p m [] [] errs).2.1))
    (fun m => (resolveRef raw bucket p m [] [] []).1)
    (fun m errs => by simp only [resolveRef_errors raw bucket p m [] [] errs])
    modes errors []
  simpa using h

theorem resolveColorTable_shape (raw : TokensRaw) (errors : List ResolutionError) :
    (resolveColorTable raw errors).1
      = (sortStrings (raw.color.map Prod.fst)).map (fun p =>
          (p, (sortStrings (((raw.color.lookup p).getD []).map Prod.fst)).map
            (fun m => (m, colorCell (resolveRef raw .color p m [] [] []).1)))) := by
  have h := foldl_table_shape
    (fun p errs => ((resolveColorEntry raw p
        (sortStrings (((raw.color.lookup p).getD []).map Prod.fst)) errs).1,
      (resolveColorEntry raw p
        (sortStrings (((raw.color.lookup p).getD []).map Prod.fst)) errs).2))
    (fun p => (sortStrings (((raw.color.lookup p).getD []).map Prod.fst)).map
      (fun m => (m, colorCell (resolveRef raw .color p m [] [] []).1)))
    (fun p errs => resolveColorEntry_shape raw p _ errs)
    (sortStrings (raw.color.map Prod.fst)) errors []
  simpa using h

theorem resolveFloatTable_shape (raw : TokensRaw) (bucket : Bucket)
    (errors : List ResolutionError) :
    (resolveFloatTable raw bucket errors).1
      = (sortStrings ((bucketTable raw bucket).map Prod.fst)).map (fun p =>
          (p, (sortStrings ((((bucketTable raw bucket).lookup p).getD []).map Prod.fst)).map
            (fun m => (m, (resolveRef raw bucket p m [] [] []).1)))) := by
  have h := foldl_table_shape
    (fun p errs => ((resolveFloatEntry raw bucket p
        (sortStrings ((((bucketTable raw bucket).lookup p).getD []).map Prod.fst)) errs).1,
      (resolveFloatEntry raw bucket p
        (sortStrings ((((bucketTable raw bucket).lookup p).getD []).map Prod.fst)) errs).2))
    (fun p => (sortStrings ((((bucketTable raw bucket).lookup p).getD []).map Prod.fst)).map
      (fun m => (m, (resolveRef raw bucket p m [] [] []).1)))
    (fun p errs => resolveFloatEntry_shape raw bucket p _ errs)
    (sortStrings ((bucketTable raw bucket).map Prod.fst)) errors []
  simpa using h

theorem mirror_of_shape {γ : Type} (src : RawTable) (cellF : String → String → γ)
    (tbl : List (String × List (String × γ)))
    (htbl : tbl = (sortStrings (src.map Prod.fst)).map (fun p =>
      (p, (sortStrings (((src.lookup p).getD []).map Prod.fst)).map
        (fun m => (m, cellF p m))))) :
    ((tbl.map Prod.fst).Perm (src.map Prod.fst))
    ∧ ∀ p e, src.lookup p = some e →
        ∃ re, tbl.lookup p = some re
          ∧ ((re.map Prod.fst).Perm (e.map Prod.fst))
          ∧ ∀ m ∈ e.map Prod.fst, (re.lookup m).isSome = true := by
  subst htbl
  constructor
  · rw [List.map_map]
    have : (Prod.fst ∘ fun p => (p,
        (sortStrings (((src.lookup p).getD []).map Prod.fst)).map (fun m => (m, cellF p m))))
        = id := by
      funext p
      rfl
    rw [this, List.map_id]
    exact List.perm_insertionSort _ _
  · intro p e hl
    have hp : p ∈ sortStrings (src.map Prod.fst) := by
      rw [sortStrings, List.mem_insertionSort]
      exact lookup_some_mem_keys hl
    refine ⟨_, lookup_map_self _ _ p hp, ?_, ?_⟩
    · rw [hl, Option.getD_some, List.map_map]
      have : (Prod.fst ∘ fun m => (m, cellF p m)) = id := by
        funext m
        rfl
      rw [this, List.map_id]
      exact List.perm_insertionSort _ _
    · intro m hm
      have hm2 : m ∈ sortStrings (((src.lookup p).getD []).map Prod.fst) := by
        rw [sortStrings, List.mem_insertionSort, hl, Option.getD_some]
        exact hm
      rw [lookup_map_self _ _ m hm2]
      rfl

/-- C10: the resolved tables mirror the raw tables exactly: per bucket the
token-path keys of `tokensResolved` are a permutation (hence the same set)
of the keys of `tokensRaw`, and for each token path the mode-name keys of
the resolved entry are a permutation of the raw entry's mode keys, every
raw mode key being present in the resolved entry (a failed resolution
stores a null cell, never a missing key — cells are `Option` values). -/
theorem resolved_mirrors_raw (raw : TokensRaw) :
    (((resolveAll raw).1.color.map Prod.fst).Perm (raw.color.map Prod.fst)
      ∧ ∀ p e, raw.color.lookup p = some e →
          ∃ re, (resolveAll raw).1.color.lookup p = some re
            ∧ ((re.map Prod.fst).Perm (e.map Prod.fst))
            ∧ ∀ m ∈ e.map Prod.fst, (re.lookup m).isSome = true)
    ∧ (((resolveAll raw).1.spacing.map Prod.fst).Perm (raw.spacing.map Prod.fst)
      ∧ ∀ p e, raw.spacing.lookup p = some e →
          ∃ re, (resolveAll raw).1.spacing.lookup p = some re
            ∧ ((re.map Prod.fst).Perm (e.map Prod.fst))
            ∧ ∀ m ∈ e.map Prod.fst, (re.lookup m).isSome = true)
    ∧ (((resolveAll raw).1.radius.map Prod.fst).Perm (raw.radius.map Prod.fst)
      ∧ ∀ p e, raw.radius.lookup p = some e →
          ∃ re, (resolveAll raw).1.radius.lookup p = some re
            ∧ ((re.map Prod.fst).Perm (e.map Prod.fst))
            ∧ ∀ m ∈ e.map Prod.fst, (re.lookup m).isSome = true) := by
  have hc : (resolveAll raw).1.color = (resolveColorTable raw []).1 := rfl
  have hs : (resolveAll raw).1.spacing
      = (resolveFloatTable raw .spacing (resolveColorTable raw []).2).1 := rfl
  have hr : (resolveAll raw).1.radius
      = (resolveFloatTable raw .radius
          (resolveFloatTable raw .spacing (resolveColorTable raw []).2).2).1 := rfl
  refine ⟨?_, ?_, ?_⟩
  · rw [hc]
    exact mirror_of_shape raw.color
      (fun p m => colorCell (resolveRef raw .color p m [] [] []).1) _
      (resolveColorTable_shape raw [])
  · rw [hs]
    exact mirror_of_shape raw.spacing
      (fun p m => (resolveRef raw .spacing p m [] [] []).1) _
      (resolveFloatTable_shape raw .spacing _)
  · rw [hr]
    exact mirror_of_shape raw.radius
      (fun p m => (resolveRef raw .radius p m [] [] []).1) _
      (resolveFloatTable_shape raw .radius _)

/-- Witness for C10 at a concrete table. -/
theorem resolved_mirrors_raw_witness :
    ∃ re, (resolveAll demoCycleLitTable).1.spacing.lookup "a" = some re
      ∧ ((re.map Prod.fst).Perm ([("m", TokenValueRaw.ref "b")].map Prod.fst))
      ∧ ∀ m ∈ [("m", TokenValueRaw.ref "b")].map Prod.fst, (re.lookup m).isSome = true :=
  (resolved_mirrors_raw demoCycleLitTable).2.1.2 "a" [("m", TokenValueRaw.ref "b")] (by rfl)

/-- C9: the path normalizer `nameToTokenPath` (split on slash, trim,
lowercase, collapse whitespace runs to a hyphen, drop empty segments,
join with dots) is a total function on strings, and it is idempotent:
applied to its own output it returns that output unchanged. -/
theorem nameToTokenPath_idem (name : String) :
    nameToTokenPath (nameToTokenPath name) = nameToTokenPath name :=
  nameToTokenPath_fixed (nameToTokenPath name).data (nameToTokenPath_chars name)

/-! ## Theorems: determinism and key order (C1), error context (C6),
and the concrete scenario (C8) -/

theorem charListLe_total : ∀ a b, charListLe a b = true ∨ charListLe b a = true := by
  intro a
  induction a with
  | nil => intro b; left; rfl
  | cons c cs ih =>
    intro b
    cases b with
    | nil => right; rfl
    | cons d ds =>
      by_cases h1 : c.toNat < d.toNat
      · left; simp [charListLe, h1]
      · by_cases h2 : d.toNat < c.toNat
        · right; simp [charListLe, h2]
        · rcases ih ds with h | h
          · left; simp [charListLe, h1, h2, h]
          · right
            simp [charListLe, h1, h2, h]

theorem charListLe_trans : ∀ a b c, charListLe a b = true → charListLe b c = true →
    charListLe a c = true := by
  intro a
  induction a with
  | nil => intro b c _ _; rfl
  | cons x xs ih =>
    intro b c hab hbc
    cases b with
    | nil => simp [charListLe] at hab
    | cons y ys =>
      cases c with
      | nil => simp [charListLe] at hbc
      | cons z zs =>
        simp only [charListLe] at hab hbc ⊢
        by_cases h1 : x.toNat < y.toNat
        · by_cases h2 : y.toNat < z.toNat
          · simp [show x.toNat < z.toNat by omega]
          · simp only [if_pos h1] at hab
            by_cases h3 : z.toNat < y.toNat
            · simp [if_neg h2, if_pos h3] at hbc
            · have : y.toNat = z.toNat := by omega
              simp [show x.toNat < z.toNat by omega]
        · by_cases h2 : y.toNat < x.toNat
          · simp [if_neg h1, if_pos h2] at hab
          · have hxy : x.toNat = y.toNat := by omega
            simp only [if_neg h1, if_neg h2] at hab
            by_cases h3 : y.toNat < z.toNat
            · simp [show x.toNat < z.toNat by omega]
            · by_cases h4 : z.toNat < y.toNat
              · simp [if_neg h3, if_pos h4] at hbc
              · simp only [if_neg h3, if_neg h4] at hbc
                simp [show ¬ x.toNat < z.toNat by omega, show ¬ z.toNat < x.toNat by omega]
                exact ih ys zs hab hbc

instance : IsTotal (String × JValue) (fun x y => strLe x.1 y.1 = true) :=
  ⟨fun a b => charListLe_total a.1.data b.1.data⟩

instance : IsTrans (String × JValue) (fun x y => strLe x.1 y.1 = true) :=
  ⟨fun _ _ _ hab hbc => charListLe_trans _ _ _ hab hbc⟩

theorem sortPairs_keys_sorted (l : List (String × JValue)) :
    ((sortPairs l).map Prod.fst).Sorted (fun a b => strLe a b = true) := by
  have h := List.sorted_insertionSort (fun x y : String × JValue => strLe x.1 y.1 = true) l
  rw [List.Sorted, List.pairwise_map]
  exact h

theorem mem_sortPairs {kv : String × JValue} {l : List (String × JValue)} :
    kv ∈ sortPairs l ↔ kv ∈ l := List.mem_insertionSort _

theorem sortFieldsF_vals :
    ∀ (fuel : Nat) (fields : List (String × JValue)), jFieldsSize fields < fuel →
      ∀ kv ∈ sortFieldsF fuel fields, KeysSortedDeep kv.2 := by
  intro fuel
  induction fuel with
  | zero => intro fields h; omega
  | succ f ih =>
    intro fields hsz kv hkv
    match fields, hsz, hkv with
    | [], _, hkv => simp [sortFieldsF] at hkv
    | (k, JValue.obj g) :: rest, hsz, hkv =>
      rw [sortFieldsF] at hkv
      have hszg : jFieldsSize g < f := by
        simp [jFieldsSize, jSize] at hsz
        omega
      have hszr : jFieldsSize rest < f := by
        simp [jFieldsSize, jSize] at hsz
        omega
      rcases List.mem_cons.mp hkv with h | h
      · subst h
        exact KeysSortedDeep.obj _ (sortPairs_keys_sorted _)
          (fun kv2 hkv2 => ih g hszg kv2 (mem_sortPairs.mp hkv2))
      · exact ih rest hszr kv h
    | (k, JValue.null) :: rest, hsz, hkv =>
      rw [sortFieldsF] at hkv
      have hszr : jFieldsSize rest < f := by
        simp [jFieldsSize, jSize] at hsz
        omega
      rcases List.mem_cons.mp hkv with h | h
      · subst h; exact KeysSortedDeep.null
      · exact ih rest hszr kv h
    | (k, JValue.bool b) :: rest, hsz, hkv =>
      rw [sortFieldsF] at hkv
      have hszr : jFieldsSize rest < f := by
        simp [jFieldsSize, jSize] at hsz
        omega
      rcases List.mem_cons.mp hkv with h | h
      · subst h; exact KeysSortedDeep.bool b
      · exact ih rest hszr kv h
    | (k, JValue.num q) :: rest, hsz, hkv =>
      rw [sortFieldsF] at hkv
      have hszr : jFieldsSize rest < f := by
        simp [jFieldsSize, jSize] at hsz
        omega
      rcases List.mem_cons.mp hkv with h | h
      · subst h; exact KeysSortedDeep.num q
      · exact ih rest hszr kv h
    | (k, JValue.str s) :: rest, hsz, hkv =>
      rw [sortFieldsF] at hkv
      have hszr : jFieldsSize rest < f := by
        simp [jFieldsSize, jSize] at hsz
        omega
      rcases List.mem_cons.mp hkv with h | h
      · subst h; exact KeysSortedDeep.str s
      · exact ih rest hszr kv h
    | (k, JValue.arr es) :: rest, hsz, hkv =>
      rw [sortFieldsF] at hkv
      have hszr : jFieldsSize rest < f := by
        simp [jFieldsSize, jSize] at hsz
        omega
      rcases List.mem_cons.mp hkv with h | h
      · subst h; exact KeysSortedDeep.arr es
      · exact ih rest hszr kv h

theorem sortObjectKeys_sorted (j : JValue) : KeysSortedDeep (sortObjectKeys j) := by
  match j with
  | .null => exact KeysSortedDeep.null
  | .bool b => exact KeysSortedDeep.bool b
  | .num q => exact KeysSortedDeep.num q
  | .str s => exact KeysSortedDeep.str s
  | .arr es => exact KeysSortedDeep.arr es
  | .obj fields =>
    rw [sortObjectKeys]
    exact KeysSortedDeep.obj _ (sortPairs_keys_sorted _)
      (fun kv hkv => sortFieldsF_vals (jFieldsSize fields + 1) fields (Nat.lt_succ_self _)
        kv (mem_sortPairs.mp hkv))

/-- C1 counterexample: the export model embeds the clock reading
(`meta.exportedAt`), so two invocations of the builder on the same
snapshot at different instants serialize differently; the claim as
stated (byte-identical output for every pair of runs) fails. -/
theorem export_not_byte_identical :
    render (buildExportModel "2025-01-01T00:00:00.000Z" [])
      ≠ render (buildExportModel "2025-01-01T00:00:01.000Z" []) := by decide

/-- C1 (amended): apart from `meta.exportedAt`, two runs of the builder
on the same snapshot produce identical output regardless of the clock;
the `tokensRaw` and `tokensResolved` mappings are recursively key-sorted
(outside arrays, which `sortObjectKeys` never enters), and arrays are
passed through unreordered. -/
theorem export_deterministic_amended (now noww : String) (collections : List RawCollection) :
    stripExportedAt (buildExportModel now collections)
      = stripExportedAt (buildExportModel noww collections)
    ∧ (∃ jraw, getField (buildExportModel now collections) "tokensRaw" = some jraw
        ∧ KeysSortedDeep jraw)
    ∧ (∃ jres, getField (buildExportModel now collections) "tokensResolved" = some jres
        ∧ KeysSortedDeep jres)
    ∧ ∀ elems, sortObjectKeys (.arr elems) = .arr elems :=
  ⟨rfl, ⟨_, rfl, sortObjectKeys_sorted _⟩, ⟨_, rfl, sortObjectKeys_sorted _⟩, fun _ => rfl⟩

/-- C6 counterexample: the export of a colliding snapshot contains a
`DuplicateTokenPath` error entry that carries the token path but has no
`requestedModeName` field, refuting the claim that every error entry
carries the requested mode. -/
theorem dup_error_lacks_requested_mode :
    getField (buildExportModel "t" demoC6cols) "errors"
      = some (.arr [dupErrorJson ⟨"surface.1", .color, "v1", "v2", "Surface/1", "Surface/1",
          "Collection A", "Collection B"⟩])
    ∧ hasKey (dupErrorJson ⟨"surface.1", .color, "v1", "v2", "Surface/1", "Surface/1",
        "Collection A", "Collection B"⟩) "tokenPath" = true
    ∧ hasKey (dupErrorJson ⟨"surface.1", .color, "v1", "v2", "Surface/1", "Surface/1",
        "Collection A", "Collection B"⟩) "requestedModeName" = false := by
  refine ⟨?_, rfl, rfl⟩
  rfl

/-- C6 (amended): every error entry in the export model carries the
offending token path; the graph errors (missing token, mode mismatch,
cycle) additionally carry the requested mode and the traversal chain,
while `DuplicateTokenPath` errors instead carry both variables'
identifiers (but no requested mode). -/
theorem errors_carry_context (now : String) (cols : List RawCollection) (es : List JValue)
    (hes : getField (buildExportModel now cols) "errors" = some (.arr es)) :
    ∀ e ∈ es, hasKey e "tokenPath" = true
      ∧ (hasKey e "requestedModeName" = true ∧ hasKey e "chain" = true
         ∨ hasKey e "existingVarId" = true ∧ hasKey e "newVarId" = true) := by
  have hconc : getField (buildExportModel now cols) "errors"
      = some (.arr ((buildRawState cols).dupErrors.map dupErrorJson
          ++ (resolveAll (buildRawState cols).tokensRaw).2.map resErrorJson)) := rfl
  rw [hconc] at hes
  have hes2 := Option.some.inj hes
  have hes3 : es = (buildRawState cols).dupErrors.map dupErrorJson
      ++ (resolveAll (buildRawState cols).tokensRaw).2.map resErrorJson := by
    cases hes2
    rfl
  subst hes3
  intro e he
  rcases List.mem_append.mp he with h | h
  · rcases List.mem_map.mp h with ⟨d, _, rfl⟩
    exact ⟨rfl, Or.inr ⟨rfl, rfl⟩⟩
  · rcases List.mem_map.mp h with ⟨r, _, rfl⟩
    exact ⟨rfl, Or.inl ⟨rfl, rfl⟩⟩

/-- Witness for the amended C6 at the colliding snapshot. -/
theorem errors_carry_context_witness :
    hasKey (dupErrorJson ⟨"surface.1", .color, "v1", "v2", "Surface/1", "Surface/1",
        "Collection A", "Collection B"⟩) "tokenPath" = true
    ∧ (hasKey (dupErrorJson ⟨"surface.1", .color, "v1", "v2", "Surface/1", "Surface/1",
          "Collection A", "Collection B"⟩) "requestedModeName" = true
        ∧ hasKey (dupErrorJson ⟨"surface.1", .color, "v1", "v2", "Surface/1", "Surface/1",
          "Collection A", "Collection B"⟩) "chain" = true
       ∨ hasKey (dupErrorJson ⟨"surface.1", .color, "v1", "v2", "Surface/1", "Surface/1",
          "Collection A", "Collection B"⟩) "existingVarId" = true
        ∧ hasKey (dupErrorJson ⟨"surface.1", .color, "v1", "v2", "Surface/1", "Surface/1",
          "Collection A", "Collection B"⟩) "newVarId" = true) :=
  errors_carry_context "t" demoC6cols _ rfl
    (dupErrorJson ⟨"surface.1", .color, "v1", "v2", "Surface/1", "Surface/1",
      "Collection A", "Collection B"⟩) (List.mem_singleton.mpr rfl)

theorem jsRound_88 : jsRound (0.88 * 255) = 224 := by
  rw [jsRound]
  norm_num

theorem jsRound_95 : jsRound (0.95 * 255) = 242 := by
  rw [jsRound]
  norm_num

theorem jsRound_1 : jsRound ((1 : ℚ) * 255) = 255 := by
  rw [jsRound]
  norm_num

theorem hex_e0f2ff : rgbaToHex 0.88 0.95 1 ((some (1 : ℚ)).getD 1) = "#e0f2ff" := by
  rw [rgbaToHex, if_pos (by norm_num)]
  rw [jsRound_88, jsRound_95, jsRound_1]
  rfl

/-- C8: on the concrete scenario input, the export model resolves both
`tokensResolved.color["accent.primary.100"].Light` and
`tokensResolved.color["button.main"].Light` to `"#e0f2ff"`. -/
theorem concrete_scenario :
    getPath (buildExportModel "2025-01-01T00:00:00.000Z" demoC8cols)
        ["tokensResolved", "color", "accent.primary.100", "Light"]
      = some (.str "#e0f2ff")
    ∧ getPath (buildExportModel "2025-01-01T00:00:00.000Z" demoC8cols)
        ["tokensResolved", "color", "button.main", "Light"]
      = some (.str "#e0f2ff") := by
  have h1 : getPath (buildExportModel "2025-01-01T00:00:00.000Z" demoC8cols)
      ["tokensResolved", "color", "accent.primary.100", "Light"]
      = some (.str (rgbaToHex 0.88 0.95 1 ((some (1 : ℚ)).getD 1))) := rfl
  have h2 : getPath (buildExportModel "2025-01-01T00:00:00.000Z" demoC8cols)
      ["tokensResolved", "color", "button.main", "Light"]
      = some (.str (rgbaToHex 0.88 0.95 1 ((some (1 : ℚ)).getD 1))) := rfl
  rw [h1, h2, hex_e0f2ff]
  exact ⟨rfl, rfl⟩

end TokenFoundry
